import Mathlib

/-! # download-ram: ranking, merge and selection engine

A shallow embedding of `src/content.js` (fuzzy scoring, ranking, the overlay
session and its key handlers) and `src/background.js` (the merge in
`getAllUrls`), followed by theorems about them.

Conventions of the embedding.

* A JavaScript string is the list of its UTF-16 code units (`Str`); indexing
  `str[i]` and `.length` are by code unit, as in the source.
* `String.prototype.toLowerCase` is a built-in of the host with full Unicode
  tables; every definition that calls it takes it as the argument `lc`.
  `asciiLower` is the instance used to evaluate on ASCII inputs.
* `undefined` (an absent property) is `none`; a property that is only ever
  tested for truthiness is a `Bool`.
* JavaScript numbers that hold scores are exact rationals: every value the
  ranking code builds (`n * 1.5`, `+ 10`, `+ 5`, `visitCount / 10`) is compared
  and added only; rounding of doubles is not modelled.
* `Array.prototype.sort` is a stable sort (ECMAScript 2019); with a consistent
  comparator its result is the stable insertion sort `jsSort`.
-/

namespace DownloadRam

/-! ## Strings -/

/-- UTF-16 code unit. -/
abbrev CodeUnit := Nat

/-- JavaScript string: its sequence of UTF-16 code units. -/
abbrev Str := List CodeUnit

/-- UTF-16 encoding of one Unicode scalar value. -/
def utf16 (c : Char) : List CodeUnit :=
  if c.toNat < 0x10000 then [c.toNat]
  else [0xD800 + (c.toNat - 0x10000) / 0x400, 0xDC00 + (c.toNat - 0x10000) % 0x400]

/-- String literal of the source as a `Str`. -/
def lit (s : String) : Str := s.toList.flatMap utf16

/-- ASCII instance of `toLowerCase`: `A`..`Z` are mapped to `a`..`z`, every
other code unit is kept. It agrees with the built-in on ASCII strings. -/
def asciiLower (s : Str) : Str :=
  s.map (fun c => if 65 ≤ c ∧ c ≤ 90 then c + 32 else c)

/-- JavaScript truthiness of a value that is a string or `undefined`. -/
def truthy : Option Str → Bool
  | none => false
  | some s => !s.isEmpty

/-- JavaScript `a || b` on values that are strings or `undefined`. -/
def jsOr (a b : Option Str) : Option Str :=
  if truthy a then a else b

/-! ## content.js: fuzzyMatch -/

/-- Loop variables of `fuzzyMatch`: `patternIdx`, `score`, `lastMatchIdx`. -/
structure ScanState where
  patternIdx : Nat
  score : Nat
  lastMatchIdx : Int
  deriving DecidableEq, Repr

/-- The code units of the literal `'/.-_'`. -/
def separators : Str := [47, 46, 45, 95]

/-- Body of the `for` loop of `fuzzyMatch` at index `i` (guard already
checked): the four `if`s run when `str[i] === pattern[patternIdx]`. -/
def fuzzyStep (pattern str : Str) (i : Nat) (st : ScanState) : ScanState :=
  if str[i]? = pattern[st.patternIdx]? then
    let score := st.score + 1
    let score := if st.lastMatchIdx = (i : Int) - 1 then score + 2 else score
    let score := if i = 0 then score + 3 else score
    let score :=
      if 0 < i ∧ (str[i - 1]?).any (fun c => separators.contains c) then score + 2
      else score
    { patternIdx := st.patternIdx + 1, score := score, lastMatchIdx := (i : Int) }
  else st

/-- The `for` loop of `fuzzyMatch`, `n` iterations from index `i`; it stops as
soon as the guard `i < str.length && patternIdx < pattern.length` fails. -/
def fuzzyLoop (pattern str : Str) : Nat → Nat → ScanState → ScanState
  | 0, _, st => st
  | n + 1, i, st =>
    if i < str.length ∧ st.patternIdx < pattern.length then
      fuzzyLoop pattern str n (i + 1) (fuzzyStep pattern str i st)
    else st

/-- Function `fuzzyMatch(pattern, str)` of content.js. The loop index runs
from 0 and grows by one, so `str.length` iterations exhaust the loop. -/
def fuzzyMatch (lc : Str → Str) (pattern str : Str) : Nat :=
  let pattern := lc pattern
  let str := lc str
  let st := fuzzyLoop pattern str str.length 0
    { patternIdx := 0, score := 0, lastMatchIdx := -1 }
  if st.patternIdx = pattern.length then st.score else 0

/-! ## content.js: candidates, normalizeItem, filterUrls -/

/-- URL record as the two scripts exchange it. A property that is absent
(`undefined`) is `none`; `isTopSite` and `isSaved` are only ever set to `true`
and tested for truthiness, so absent is `false`. -/
structure UrlRecord where
  url : Option Str
  title : Option Str
  source : Option Str
  isTopSite : Bool
  isSaved : Bool
  visitCount : Option Nat
  deriving DecidableEq, Repr

/-- Entry of a url list: a bare string (legacy saved entry) or a record. -/
inductive UrlItem where
  | str (s : Str)
  | obj (r : UrlRecord)
  deriving DecidableEq, Repr

/-- Function `normalizeItem(item)` of content.js. -/
def normalizeItem : UrlItem → UrlRecord
  | .str s =>
    { url := some s, title := some s, source := none,
      isTopSite := false, isSaved := false, visitCount := none }
  | .obj r =>
    { url := r.url, title := jsOr r.title r.url, source := none,
      isTopSite := r.isTopSite, isSaved := r.isSaved,
      visitCount := some (r.visitCount.getD 0) }

/-- Result record `{ ...item, score }` of `filterUrls`. -/
structure ScoredRecord where
  item : UrlRecord
  score : ℚ
  deriving DecidableEq, Repr

/-- Built-in `Array.prototype.sort(cmp)`: stable; `a` stays before a later `b`
unless `cmp(a, b) > 0`. -/
def jsSort {α β : Type} [Zero β] [LE β] [DecidableRel (fun (x y : β) => x ≤ y)]
    (cmp : α → α → β) (l : List α) : List α :=
  l.insertionSort (fun a b => cmp a b ≤ 0)

/-- Built-in `Array.prototype.map` with a callback that may throw: `none` when
some call throws. -/
def mapThrow {α β : Type} (f : α → Option β) : List α → Option (List β)
  | [] => some []
  | x :: xs =>
    match f x with
    | none => none
    | some y => (mapThrow f xs).map (fun ys => y :: ys)

/-- Callback of the `.map` in the empty-query branch of `filterUrls`. -/
def defaultScore (item : UrlRecord) : ℚ :=
  let score : ℚ := 1
  let score := if item.isTopSite then score + 100 else score
  let score := if item.isSaved then score + 50 else score
  score + min ((item.visitCount.getD 0 : Nat) : ℚ) 50

/-- Callback of the `.map` in the query branch of `filterUrls`. `none` is the
TypeError of `str.toLowerCase()` inside `fuzzyMatch` when `item.title` or
`item.url` is `undefined`. -/
def queryScore (lc : Str → Str) (query : Str) (item : UrlRecord) : Option ℚ :=
  match item.title, item.url with
  | some title, some url =>
    let titleScore : ℚ := (fuzzyMatch lc query title : ℚ) * 1.5
    let urlScore : ℚ := (fuzzyMatch lc query url : ℚ)
    let score := max titleScore urlScore
    if score > 0 then
      let score := if item.isTopSite then score + 10 else score
      let score := if item.isSaved then score + 5 else score
      some (score + min (((item.visitCount.getD 0 : Nat) : ℚ) / 10) 5)
    else some score
  | _, _ => none

/-- Comparator `(a, b) => b.score - a.score`. -/
def byScore (a b : ScoredRecord) : ℚ := b.score - a.score

/-- Function `filterUrls(query)` of content.js; the global `urls` is the
argument. `none` when a callback throws. -/
def filterUrls (lc : Str → Str) (urls : List UrlItem) (query : Str) :
    Option (List ScoredRecord) :=
  let normalized := urls.map normalizeItem
  if query.isEmpty then
    some (jsSort byScore
      (normalized.map (fun item => { item := item, score := defaultScore item })))
  else
    (mapThrow (fun item => (queryScore lc query item).map
        (fun score => ({ item := item, score := score } : ScoredRecord))) normalized).map
      (fun scored => jsSort byScore (scored.filter (fun item => item.score > 0)))

/-! ## content.js: typed input -/

/-- WhiteSpace and LineTerminator code units of ECMAScript, the ones
`String.prototype.trim` strips. -/
def isWhiteSpace (c : CodeUnit) : Bool :=
  c = 9 || c = 10 || c = 11 || c = 12 || c = 13 || c = 32 || c = 0xA0 || c = 0x1680 ||
  (0x2000 ≤ c && c ≤ 0x200A) || c = 0x2028 || c = 0x2029 || c = 0x202F || c = 0x205F ||
  c = 0x3000 || c = 0xFEFF

/-- Built-in `String.prototype.trim`. -/
def trim (s : Str) : Str :=
  ((s.dropWhile isWhiteSpace).reverse.dropWhile isWhiteSpace).reverse

/-- Function `looksLikeUrl(input)`: `input.includes('.') && !input.includes(' ')`. -/
def looksLikeUrl (input : Str) : Bool :=
  input.contains 46 && !input.contains 32

/-- Test `/^https?:\/\//i.test(input)`: the regular expression matches the
ASCII letters of `http://` and `https://` in either case at the start. -/
def hasHttpScheme (input : Str) : Bool :=
  asciiLower (input.take 7) = lit "http://" || asciiLower (input.take 8) = lit "https://"

/-- Function `normalizeUrl(input)`. -/
def normalizeUrl (input : Str) : Str :=
  if !hasHttpScheme input then lit "https://" ++ input else input

/-- Unreserved set of `encodeURIComponent`: ASCII letters, digits and
`-_.!~*'()`. -/
def isUnreserved (c : CodeUnit) : Bool :=
  (48 ≤ c && c ≤ 57) || (65 ≤ c && c ≤ 90) || (97 ≤ c && c ≤ 122) ||
  [45, 95, 46, 33, 126, 42, 39, 40, 41].contains c

/-- Upper-case hexadecimal digit. -/
def hexDigit (n : Nat) : CodeUnit := if n < 10 then 48 + n else 55 + n

/-- Escape `%XX` of one octet. -/
def percentOctet (b : Nat) : Str := [37, hexDigit (b / 16), hexDigit (b % 16)]

/-- UTF-8 octets of a code point. -/
def utf8 (cp : Nat) : List Nat :=
  if cp < 0x80 then [cp]
  else if cp < 0x800 then [0xC0 + cp / 0x40, 0x80 + cp % 0x40]
  else if cp < 0x10000 then [0xE0 + cp / 0x1000, 0x80 + cp / 0x40 % 0x40, 0x80 + cp % 0x40]
  else [0xF0 + cp / 0x40000, 0x80 + cp / 0x1000 % 0x40, 0x80 + cp / 0x40 % 0x40,
        0x80 + cp % 0x40]

/-- Built-in `encodeURIComponent`; `none` is the URIError thrown on an unpaired
surrogate. `pending` holds a leading surrogate waiting for its trail. -/
def encodeFrom : Option CodeUnit → Str → Option Str
  | none, [] => some []
  | some _, [] => none
  | none, c :: rest =>
    if isUnreserved c then (encodeFrom none rest).map (fun r => c :: r)
    else if 0xD800 ≤ c ∧ c ≤ 0xDBFF then encodeFrom (some c) rest
    else if 0xDC00 ≤ c ∧ c ≤ 0xDFFF then none
    else (encodeFrom none rest).map (fun r => (utf8 c).flatMap percentOctet ++ r)
  | some hi, c :: rest =>
    if 0xDC00 ≤ c ∧ c ≤ 0xDFFF then
      (encodeFrom none rest).map (fun r =>
        (utf8 (0x10000 + (hi - 0xD800) * 0x400 + (c - 0xDC00))).flatMap percentOctet ++ r)
    else none

/-- Built-in `encodeURIComponent(s)`. -/
def encodeURIComponent (s : Str) : Option Str := encodeFrom none s

/-- Function `googleSearchUrl(query)`; `none` when `encodeURIComponent` throws. -/
def googleSearchUrl (query : Str) : Option Str :=
  (encodeURIComponent query).map (fun e => lit "https://www.google.com/search?q=" ++ e)

/-! ## content.js: the overlay session -/

/-- Values of the global `mode`. -/
inductive Mode where
  | omnisearch
  | finder
  deriving DecidableEq, Repr

/-- Message sent with `chrome.runtime.sendMessage`. -/
inductive Action where
  | navigate (url : Option Str)
  | saveAndNavigate (url : Option Str) (saveUrl saveTitle : Option Str)
  | removeAndNavigate (url : Option Str) (removeUrl : Option Str)
  deriving DecidableEq, Repr

/-- Kind of the action row, its `data-action` attribute. -/
inductive ActionKind where
  | url
  | search
  deriving DecidableEq, Repr

/-- Clickable rows that `renderResults` left in `#qul-results`: the action row
(omnisearch only) and the number of `data-index` rows. -/
structure Dom where
  actionRow : Option ActionKind
  indexRows : Nat
  deriving DecidableEq, Repr

/-- Module state of content.js: the globals declared at lines 1-9, the value of
the text box `#qul-input`, and the rendered rows. `modal` is `true` while the
global `modal` holds the overlay element. -/
structure Session where
  modal : Bool
  mode : Option Mode
  urls : List UrlItem
  filteredUrls : List ScoredRecord
  selectedIndex : Int
  consumeUrl : Option Str
  urlToSave : Option Str
  titleToSave : Option Str
  input : Str
  dom : Dom
  deriving DecidableEq, Repr

/-- State of the module after it is loaded. -/
def Session.initial : Session :=
  { modal := false, mode := none, urls := [], filteredUrls := [], selectedIndex := 0,
    consumeUrl := none, urlToSave := none, titleToSave := none, input := [],
    dom := { actionRow := none, indexRows := 0 } }

/-- Function `closeModal()`; `modal.remove()` takes the text box and the rows
out of the document. -/
def closeModal (s : Session) : Session :=
  if s.modal then
    { s with modal := false, mode := none, consumeUrl := none, urlToSave := none,
             titleToSave := none, input := [], dom := { actionRow := none, indexRows := 0 } }
  else s

/-- Function `renderResults(query)`: which clickable rows it writes. -/
def renderResults (s : Session) (query : Str) : Session :=
  match s.mode with
  | some .omnisearch =>
    if query.isEmpty then { s with dom := { actionRow := none, indexRows := 0 } }
    else
      { s with dom :=
          { actionRow := some (if looksLikeUrl query then .url else .search),
            indexRows := (s.filteredUrls.take 10).length } }
  | some .finder => { s with dom := { actionRow := none, indexRows := s.filteredUrls.length } }
  | none => s

/-- Function `showModal(modalMode, urlList, urlToConsume, currentUrl, currentTitle)`.
The new text box is empty. -/
def showModal (lc : Str → Str) (s : Session) (modalMode : Mode) (urlList : List UrlItem)
    (urlToConsume currentUrl currentTitle : Option Str) : Session :=
  let s := if s.modal then closeModal s else s
  let s := { s with mode := some modalMode, urls := urlList }
  match filterUrls lc s.urls [] with
  | none => s
  | some filtered =>
    renderResults
      { s with filteredUrls := filtered, selectedIndex := 0, consumeUrl := urlToConsume,
               urlToSave := currentUrl, titleToSave := currentTitle, modal := true,
               input := [] } []

/-- Function `handleInput(e)`, with `e.target.value = value`; a throwing
`filterUrls` ends the handler before any assignment. -/
def handleInput (lc : Str → Str) (s : Session) (value : Str) : Session :=
  let s := { s with input := value }
  match filterUrls lc s.urls value with
  | none => s
  | some filtered => renderResults { s with filteredUrls := filtered, selectedIndex := 0 } value

/-- Keys that `handleKeydown` tells apart: Escape, ArrowDown or Alt+j,
ArrowUp or Alt+k, Enter, any other. -/
inductive Key where
  | escape
  | down
  | up
  | enter
  | other
  deriving DecidableEq, Repr

/-- The two-way dispatch that ends the Enter branch and the action-row click:
`removeAndNavigate` when `urlToRemove` is truthy, else `saveAndNavigate`. -/
def dispatchCommit (s : Session) (url : Option Str) : Action :=
  if truthy s.consumeUrl then .removeAndNavigate url s.consumeUrl
  else .saveAndNavigate url s.urlToSave s.titleToSave

/-- Element `filteredUrls[selectedIndex]`, `undefined` for a negative or too
large index. -/
def selectedRow (s : Session) : Option ScoredRecord :=
  if 0 ≤ s.selectedIndex then s.filteredUrls[s.selectedIndex.toNat]? else none

/-- Function `handleKeydown(e)`: the new state and the message sent, if any.
A URIError of `encodeURIComponent` ends the handler with nothing changed. -/
def handleKeydown (s : Session) (k : Key) : Session × Option Action :=
  match k with
  | .escape => (closeModal s, none)
  | .down =>
    let query := s.input
    let maxIndex : Int := min ((s.filteredUrls.length : Int) - 1) 9
    let s :=
      if s.mode = some .omnisearch ∧ ¬ query.isEmpty ∧ s.selectedIndex = -1 then
        { s with selectedIndex := 0 }
      else { s with selectedIndex := min (s.selectedIndex + 1) maxIndex }
    (renderResults s query, none)
  | .up =>
    let query := s.input
    let s :=
      if s.mode = some .omnisearch ∧ ¬ query.isEmpty ∧ s.selectedIndex = 0 then
        { s with selectedIndex := -1 }
      else { s with selectedIndex := max (s.selectedIndex - 1) 0 }
    (renderResults s query, none)
  | .enter =>
    let input := trim s.input
    match s.mode with
    | some .omnisearch =>
      match (if 0 ≤ s.selectedIndex then selectedRow s else none) with
      | some row => (closeModal s, some (dispatchCommit s row.item.url))
      | none =>
        if input.isEmpty then (s, none)
        else
          match (if looksLikeUrl input then some (normalizeUrl input)
                 else googleSearchUrl input) with
          | none => (s, none)
          | some url => (closeModal s, some (dispatchCommit s (some url)))
    | some .finder =>
      match (if 0 < s.filteredUrls.length then selectedRow s else none) with
      | some row => (closeModal s, some (.navigate row.item.url))
      | none => (s, none)
    | none => (s, none)
  | .other => (s, none)

/-- Click handler of a `data-index` row. In omnisearch mode it sends
`removeAndNavigate` when `urlToRemove` is truthy and `navigate` otherwise; in
finder mode it sends `navigate`. -/
def clickRow (s : Session) (idx : Nat) : Session × Option Action :=
  if idx < s.dom.indexRows then
    match s.filteredUrls[idx]? with
    | none => (s, none)
    | some row =>
      match s.mode with
      | some .omnisearch =>
        (closeModal s,
          some (if truthy s.consumeUrl then .removeAndNavigate row.item.url s.consumeUrl
                else .navigate row.item.url))
      | some .finder => (closeModal s, some (.navigate row.item.url))
      | none => (s, none)
  else (s, none)

/-- Click handler of the action row (`data-action`), omnisearch mode. -/
def clickAction (s : Session) : Session × Option Action :=
  match s.dom.actionRow with
  | none => (s, none)
  | some kind =>
    let input := trim s.input
    match (match kind with
           | .url => some (normalizeUrl input)
           | .search => googleSearchUrl input) with
    | none => (s, none)
    | some url => (closeModal s, some (dispatchCommit s (some url)))

/-- Events of an open overlay. -/
inductive Event where
  | type (value : Str)
  | key (k : Key)
  | clickRow (idx : Nat)
  | clickAction
  | clickOverlay
  deriving DecidableEq, Repr

/-- One event; the listeners exist only while the overlay is in the document. -/
def step (lc : Str → Str) (s : Session) (e : Event) : Session × Option Action :=
  if s.modal then
    match e with
    | .type value => (handleInput lc s value, none)
    | .key k => handleKeydown s k
    | .clickRow idx => clickRow s idx
    | .clickAction => clickAction s
    | .clickOverlay => (closeModal s, none)
  else (s, none)

/-- State after a sequence of events. -/
def run (lc : Str → Str) (s : Session) (es : List Event) : Session :=
  es.foldl (fun s e => (step lc s e).1) s

/-! ## background.js: getAllUrls -/

/-- JavaScript `Map` from url to record, entries in insertion order. -/
abbrev UrlMap := List (Option Str × UrlRecord)

/-- `urlMap.has(key)`. -/
def UrlMap.has (m : UrlMap) (key : Option Str) : Bool :=
  m.any (fun e => e.1 = key)

/-- `urlMap.get(key)`. -/
def UrlMap.get (m : UrlMap) (key : Option Str) : Option UrlRecord :=
  (m.find? (fun e => e.1 = key)).map (fun e => e.2)

/-- `urlMap.set(key, value)`: an existing key keeps its place. -/
def UrlMap.set (m : UrlMap) (key : Option Str) (value : UrlRecord) : UrlMap :=
  if UrlMap.has m key then m.map (fun e => if e.1 = key then (key, value) else e)
  else m ++ [(key, value)]

/-- Mutation of the object `urlMap.get(key)` in place. -/
def UrlMap.modify (m : UrlMap) (key : Option Str) (f : UrlRecord → UrlRecord) : UrlMap :=
  m.map (fun e => if e.1 = key then (e.1, f e.2) else e)

/-- `Array.from(urlMap.values())`. -/
def UrlMap.values (m : UrlMap) : List UrlRecord := m.map (fun e => e.2)

/-- Loop "Add top sites first". -/
def addTopSites (m : UrlMap) (topSites : List UrlRecord) : UrlMap :=
  topSites.foldl (fun m item => UrlMap.set m item.url { item with isTopSite := true }) m

/-- Loop "Add history". -/
def addHistory (m : UrlMap) (historyUrls : List UrlRecord) : UrlMap :=
  historyUrls.foldl (fun m item =>
    if UrlMap.has m item.url then
      UrlMap.modify m item.url (fun existing => { existing with visitCount := item.visitCount })
    else UrlMap.set m item.url item) m

/-- Local `url` of the saved loop. -/
def savedUrl : UrlItem → Option Str
  | .str s => some s
  | .obj r => r.url

/-- Local `title` of the saved loop. -/
def savedTitle : UrlItem → Option Str
  | .str s => some s
  | .obj r => jsOr r.title r.url

/-- Loop "Add saved URLs". -/
def addSaved (m : UrlMap) (savedUrls : List UrlItem) : UrlMap :=
  savedUrls.foldl (fun m item =>
    let url := savedUrl item
    let title := savedTitle item
    if UrlMap.has m url then
      UrlMap.modify m url (fun existing =>
        let existing := { existing with isSaved := true }
        if truthy title ∧ title ≠ url then { existing with title := title } else existing)
    else
      UrlMap.set m url
        { url := url, title := title, source := none, isTopSite := false, isSaved := true,
          visitCount := none }) m

/-- Comparator of the final sort of `getAllUrls`. -/
def compareMerged (a b : UrlRecord) : Int :=
  if a.isTopSite ∧ ¬ b.isTopSite then -1
  else if ¬ a.isTopSite ∧ b.isTopSite then 1
  else if a.isSaved ∧ ¬ b.isSaved then -1
  else if ¬ a.isSaved ∧ b.isSaved then 1
  else ((b.visitCount.getD 0 : Nat) : Int) - ((a.visitCount.getD 0 : Nat) : Int)

/-- Function `getAllUrls()` of background.js, from the three lists it awaits. -/
def getAllUrls (savedUrls : List UrlItem) (historyUrls topSites : List UrlRecord) :
    List UrlRecord :=
  let urlMap : UrlMap := []
  let urlMap := addTopSites urlMap topSites
  let urlMap := addHistory urlMap historyUrls
  let urlMap := addSaved urlMap savedUrls
  jsSort compareMerged (UrlMap.values urlMap)

/-! ## Vocabulary of the statements and sample data -/

/-- The query is a case-insensitive subsequence of the record's title or of
its url. -/
def matchesQuery (lc : Str → Str) (query : Str) (r : UrlRecord) : Bool :=
  match r.title, r.url with
  | some title, some url =>
    decide (List.Sublist (lc query) (lc title)) || decide (List.Sublist (lc query) (lc url))
  | _, _ => false

/-- Url of the message, whatever its kind. -/
def Action.target : Action → Option Str
  | .navigate url => url
  | .saveAndNavigate url _ _ => url
  | .removeAndNavigate url _ => url

/-- Record A of the default-ordering example: a top site. -/
def sampleA : UrlRecord :=
  { url := some (lit "a.com"), title := some (lit "A"), source := none,
    isTopSite := true, isSaved := false, visitCount := none }

/-- Record B of the default-ordering example: saved, 5 visits. -/
def sampleB : UrlRecord :=
  { url := some (lit "b.com"), title := some (lit "B"), source := none,
    isTopSite := false, isSaved := true, visitCount := some 5 }

/-- Record C of the default-ordering example: 100 visits. -/
def sampleC : UrlRecord :=
  { url := some (lit "c.com"), title := some (lit "C"), source := none,
    isTopSite := false, isSaved := false, visitCount := some 100 }

/-- Record that is saved, not a top site, with 50 visits: default score 101. -/
def tieSaved : UrlRecord :=
  { url := some (lit "saved.com"), title := some (lit "Saved"), source := none,
    isTopSite := false, isSaved := true, visitCount := some 50 }

/-- Record that is a top site, not saved, without visits: default score 101. -/
def tieTop : UrlRecord :=
  { url := some (lit "top.com"), title := some (lit "Top"), source := none,
    isTopSite := true, isSaved := false, visitCount := none }

/-- Invariant of the url map: keys are pairwise different and every record is
stored under its own `url`. -/
def UrlMap.WellKeyed (m : UrlMap) : Prop :=
  (m.map (fun e => e.1)).Nodup ∧ ∀ e ∈ m, e.2.url = e.1

/-- What one top-site item does to the entry stored under its url. -/
def topStep (_ : Option UrlRecord) (item : UrlRecord) : Option UrlRecord :=
  some { item with isTopSite := true }

/-- What one history item does to the entry stored under its url. -/
def historyStep (entry : Option UrlRecord) (item : UrlRecord) : Option UrlRecord :=
  match entry with
  | some existing => some { existing with visitCount := item.visitCount }
  | none => some item

/-- Record written by a saved entry whose url is already in the map. -/
def markSaved (item : UrlItem) (existing : UrlRecord) : UrlRecord :=
  let existing := { existing with isSaved := true }
  if truthy (savedTitle item) ∧ savedTitle item ≠ savedUrl item then
    { existing with title := savedTitle item }
  else existing

/-- What one saved entry does to the entry stored under its url. -/
def savedStep (entry : Option UrlRecord) (item : UrlItem) : Option UrlRecord :=
  match entry with
  | some existing => some (markSaved item existing)
  | none =>
    some { url := savedUrl item, title := savedTitle item, source := none,
           isTopSite := false, isSaved := true, visitCount := none }

/-- The url map that `getAllUrls` sorts. -/
def mergedMap (savedUrls : List UrlItem) (historyUrls topSites : List UrlRecord) : UrlMap :=
  addSaved (addHistory (addTopSites [] topSites) historyUrls) savedUrls

/-- History record of a.com with 7 visits. -/
def historyA : UrlRecord :=
  { url := some (lit "a.com"), title := some (lit "A from history"),
    source := some (lit "history"), isTopSite := false, isSaved := false,
    visitCount := some 7 }

/-- Saved entry of a.com with a title of its own. -/
def savedA : UrlItem :=
  .obj { url := some (lit "a.com"), title := some (lit "My A"), source := none,
         isTopSite := false, isSaved := false, visitCount := none }

/-- Omnisearch session of the capture flow (no `consumeUrl`) over the single
candidate B, opened on the page `https://current.page/`, after "b" is typed. -/
def captureSession : Session :=
  run asciiLower
    (showModal asciiLower Session.initial .omnisearch [.obj sampleB] none
      (some (lit "https://current.page/")) (some (lit "Current")))
    [.type (lit "b")]

/-- Finder session without candidates, just opened. -/
def emptyFinder : Session :=
  showModal asciiLower Session.initial .finder [] none none none

/-- Omnisearch session of the capture flow without candidates, opened on the
page `https://current.page/`, after `value` is typed. -/
def typedSession (value : Str) : Session :=
  run asciiLower
    (showModal asciiLower Session.initial .omnisearch [] none
      (some (lit "https://current.page/")) (some (lit "Current")))
    [.type value]

/-- Range of the cursor that every open session keeps: at least -1, at most
`min(len(filtered) - 1, 9)` and, in finder mode, at least 0 - the last two as
long as the filtered list is not empty. -/
def CursorInRange (s : Session) : Prop :=
  -1 ≤ s.selectedIndex ∧
  (s.filteredUrls ≠ [] →
    s.selectedIndex ≤ min ((s.filteredUrls.length : Int) - 1) 9 ∧
    (s.mode = some .finder → 0 ≤ s.selectedIndex))

/-- Events Type, Move down and Move up. -/
def Event.isNavigation : Event → Bool
  | .type _ => true
  | .key .down => true
  | .key .up => true
  | _ => false

/-- Finder session over the two saved strings a.com and b.com, just opened. -/
def twoFinder : Session :=
  showModal asciiLower Session.initial .finder [.str (lit "a.com"), .str (lit "b.com")]
    none none none

/-- Top-site record without a `url` property. -/
def noUrlTop : UrlRecord :=
  { url := none, title := some (lit "No url"), source := some (lit "topSite"),
    isTopSite := false, isSaved := false, visitCount := none }

/-- Entries of the url map that are stored under a url, not under `undefined`. -/
def UrlMap.withUrl (m : UrlMap) : UrlMap :=
  m.filter (fun e => e.1 ≠ none)

/-- Record that is neither saved nor a top site, with 50 visits: default
score 51. -/
def tiePlain : UrlRecord :=
  { url := some (lit "plain.com"), title := some (lit "Plain"), source := none,
    isTopSite := false, isSaved := false, visitCount := some 50 }

/-- Record that is saved, not a top site, without visits: default score 51. -/
def tieBare : UrlRecord :=
  { url := some (lit "bare.com"), title := some (lit "Bare"), source := none,
    isTopSite := false, isSaved := true, visitCount := none }

/-! ## Lemmas on the scan -/

theorem fuzzyStep_patternIdx_le (pattern str : Str) (i : Nat) (st : ScanState) :
    st.patternIdx ≤ (fuzzyStep pattern str i st).patternIdx := by
  unfold fuzzyStep
  split <;> simp

theorem fuzzyStep_score (pattern str : Str) (i : Nat) (st : ScanState) :
    st.score + ((fuzzyStep pattern str i st).patternIdx - st.patternIdx)
      ≤ (fuzzyStep pattern str i st).score := by
  unfold fuzzyStep
  split
  · simp only [Nat.add_sub_cancel_left]
    split <;> split <;> split <;> omega
  · simp

/-- The scan never moves `patternIdx` back and adds at least one point for
every pattern character it consumes. -/
theorem fuzzyLoop_score (pattern str : Str) :
    ∀ (n i : Nat) (st : ScanState),
      st.patternIdx ≤ (fuzzyLoop pattern str n i st).patternIdx ∧
      st.score + ((fuzzyLoop pattern str n i st).patternIdx - st.patternIdx)
        ≤ (fuzzyLoop pattern str n i st).score := by
  intro n
  induction n with
  | zero => intro i st; simp [fuzzyLoop]
  | succ n ih =>
    intro i st
    unfold fuzzyLoop
    split
    · have h1 := fuzzyStep_patternIdx_le pattern str i st
      have h2 := fuzzyStep_score pattern str i st
      obtain ⟨h3, h4⟩ := ih (i + 1) (fuzzyStep pattern str i st)
      constructor <;> omega
    · simp

/-- The scan consumes the whole pattern exactly when what is left of the
pattern is a subsequence of what is left of the text. -/
theorem fuzzyLoop_complete_iff (pattern str : Str) :
    ∀ (n i : Nat) (st : ScanState), i + n = str.length →
      st.patternIdx ≤ pattern.length →
      ((fuzzyLoop pattern str n i st).patternIdx = pattern.length ↔
        List.Sublist (pattern.drop st.patternIdx) (str.drop i)) := by
  intro n
  induction n with
  | zero =>
    intro i st hi hp
    have h1 : str.drop i = [] := List.drop_eq_nil_of_le (by omega)
    simp only [fuzzyLoop, h1, List.sublist_nil, List.drop_eq_nil_iff]
    omega
  | succ n ih =>
    intro i st hi hp
    unfold fuzzyLoop
    split
    · rename_i hg
      obtain ⟨hi1, hp1⟩ := hg
      have hs : str.drop i = str[i] :: str.drop (i + 1) := (List.getElem_cons_drop _ _ hi1).symm
      have hq : pattern.drop st.patternIdx
          = pattern[st.patternIdx] :: pattern.drop (st.patternIdx + 1) :=
        (List.getElem_cons_drop _ _ hp1).symm
      rw [hs, hq]
      by_cases he : str[i]? = pattern[st.patternIdx]?
      · have hst : (fuzzyStep pattern str i st).patternIdx = st.patternIdx + 1 := by
          unfold fuzzyStep; rw [if_pos he]
        have he2 : str[i] = pattern[st.patternIdx] := by
          rw [List.getElem?_eq_getElem hi1, List.getElem?_eq_getElem hp1] at he
          exact Option.some.inj he
        rw [ih (i + 1) _ (by omega) (by omega), hst, he2]
        exact (List.cons_sublist_cons).symm
      · have hst : fuzzyStep pattern str i st = st := by
          unfold fuzzyStep; rw [if_neg he]
        have he2 : str[i] ≠ pattern[st.patternIdx] := by
          intro h
          apply he
          rw [List.getElem?_eq_getElem hi1, List.getElem?_eq_getElem hp1, h]
        rw [ih (i + 1) _ (by omega) (by rw [hst]; exact hp), hst, hq]
        constructor
        · intro h; exact List.Sublist.cons _ h
        · intro h
          generalize str[i] = a at h he2
          generalize pattern[st.patternIdx] = b at h he2
          cases h with
          | cons _ h => exact h
          | cons₂ _ h => exact absurd rfl he2
    · rename_i hg
      have hp2 : st.patternIdx = pattern.length := by omega
      simp [hp2]

/-- Whole scan: all pattern characters are consumed exactly when the pattern is
a subsequence of the text. -/
theorem fuzzyLoop_full_iff (pattern str : Str) :
    (fuzzyLoop pattern str str.length 0
        { patternIdx := 0, score := 0, lastMatchIdx := -1 }).patternIdx = pattern.length ↔
      List.Sublist pattern str := by
  have h := fuzzyLoop_complete_iff pattern str str.length 0
    { patternIdx := 0, score := 0, lastMatchIdx := -1 } (by simp) (by simp)
  simpa using h

theorem fuzzyMatch_pos_iff (lc : Str → Str) (pattern text : Str) (hp : lc pattern ≠ []) :
    0 < fuzzyMatch lc pattern text ↔ List.Sublist (lc pattern) (lc text) := by
  have hfull := fuzzyLoop_full_iff (lc pattern) (lc text)
  have hsc := (fuzzyLoop_score (lc pattern) (lc text) (lc text).length 0
    { patternIdx := 0, score := 0, lastMatchIdx := -1 }).2
  have hlen : 0 < (lc pattern).length := List.length_pos.mpr hp
  unfold fuzzyMatch
  simp only
  split
  · rename_i heq
    constructor
    · intro _; exact hfull.mp heq
    · intro _
      rw [heq] at hsc
      simp only [Nat.sub_zero, Nat.zero_add] at hsc
      omega
  · rename_i hne
    constructor
    · intro h; exact absurd h (Nat.lt_irrefl 0)
    · intro h; exact absurd (hfull.mpr h) hne

/-- C1: for a non-empty pattern, `fuzzyMatch(pattern, text)` is positive
exactly when the lower-cased pattern is a subsequence of the lower-cased text
and is 0 otherwise; `fuzzyMatch(p, p)` is positive; `fuzzyMatch("gh",
"github.com")` is positive and `fuzzyMatch("xyz", "github.com")` is 0. The
built-in `toLowerCase` is any function that keeps non-empty strings non-empty
(and, for the two examples, keeps the lower-case literals). -/
theorem fuzzyMatch_subsequence_law (lc : Str → Str) (hlc : ∀ s : Str, s ≠ [] → lc s ≠ [])
    (pattern text : Str) (hp : pattern ≠ []) :
    (0 < fuzzyMatch lc pattern text ↔ List.Sublist (lc pattern) (lc text)) ∧
    (¬ List.Sublist (lc pattern) (lc text) → fuzzyMatch lc pattern text = 0) ∧
    0 < fuzzyMatch lc pattern pattern ∧
    (lc (lit "gh") = lit "gh" → lc (lit "github.com") = lit "github.com" →
      0 < fuzzyMatch lc (lit "gh") (lit "github.com")) ∧
    (lc (lit "xyz") = lit "xyz" → lc (lit "github.com") = lit "github.com" →
      fuzzyMatch lc (lit "xyz") (lit "github.com") = 0) := by
  have hiff := fuzzyMatch_pos_iff lc pattern text (hlc pattern hp)
  refine ⟨hiff, ?_, ?_, ?_, ?_⟩
  · intro hns
    have h := mt hiff.mp hns
    omega
  · exact (fuzzyMatch_pos_iff lc pattern pattern (hlc pattern hp)).mpr (List.Sublist.refl _)
  · intro h1 h2
    simp only [fuzzyMatch, h1, h2]
    decide
  · intro h1 h2
    simp only [fuzzyMatch, h1, h2]
    decide

theorem asciiLower_ne_nil (s : Str) (h : s ≠ []) : asciiLower s ≠ [] := by
  simpa [asciiLower] using h

/-- C1 at `toLowerCase = asciiLower`, pattern "gh", text "github.com". -/
theorem fuzzyMatch_subsequence_law_witness :
    (∀ s : Str, s ≠ [] → asciiLower s ≠ []) ∧ lit "gh" ≠ [] ∧
    (0 < fuzzyMatch asciiLower (lit "gh") (lit "github.com") ↔
      List.Sublist (asciiLower (lit "gh")) (asciiLower (lit "github.com"))) ∧
    0 < fuzzyMatch asciiLower (lit "gh") (lit "gh") ∧
    0 < fuzzyMatch asciiLower (lit "gh") (lit "github.com") ∧
    fuzzyMatch asciiLower (lit "xyz") (lit "github.com") = 0 :=
  have h := fuzzyMatch_subsequence_law asciiLower asciiLower_ne_nil (lit "gh")
    (lit "github.com") (by decide)
  ⟨asciiLower_ne_nil, by decide, h.1, h.2.2.1, h.2.2.2.1 (by decide) (by decide),
    h.2.2.2.2 (by decide) (by decide)⟩

/-- C10: `fuzzyMatch("g", "github.com")` evaluates to 6, not to 1 + 3: the
single match at index 0 also receives the consecutive-match bonus, because
`lastMatchIdx` starts at -1, which equals `i - 1` at `i = 0`. The same holds
for every one-character text matched by itself. -/
theorem fuzzyMatch_first_match_bonus :
    fuzzyMatch asciiLower (lit "g") (lit "github.com") = 6 ∧
    fuzzyMatch asciiLower (lit "g") (lit "github.com") ≠ 1 + 3 ∧
    ∀ c : CodeUnit, fuzzyMatch (fun s => s) [c] [c] = 1 + 2 + 3 := by
  refine ⟨by decide, by decide, ?_⟩
  intro c
  simp [fuzzyMatch, fuzzyLoop, fuzzyStep]

/-! ## Lemmas on filterUrls -/

theorem mapThrow_eq_some {α β : Type} (f : α → Option β) (g : α → β) :
    ∀ l : List α, (∀ x ∈ l, f x = some (g x)) → mapThrow f l = some (l.map g) := by
  intro l
  induction l with
  | nil => intro _; rfl
  | cons x xs ih =>
    intro h
    have hx := h x (List.mem_cons_self _ _)
    have hxs := ih (fun y hy => h y (List.mem_cons_of_mem _ hy))
    simp [mapThrow, hx, hxs]

theorem normalizeItem_url (i : UrlItem) : (normalizeItem i).url = savedUrl i := by
  cases i <;> rfl

theorem normalizeItem_title (i : UrlItem) : (normalizeItem i).title = savedTitle i := by
  cases i <;> rfl

theorem jsOr_isSome (a b : Option Str) (hb : b ≠ none) : jsOr a b ≠ none := by
  unfold jsOr
  split
  · rename_i h
    intro ha
    rw [ha] at h
    simp [truthy] at h
  · exact hb

theorem savedTitle_ne_none (i : UrlItem) (h : savedUrl i ≠ none) : savedTitle i ≠ none := by
  cases i with
  | str s => simp [savedTitle]
  | obj r => exact jsOr_isSome _ _ h

theorem queryScore_pos_iff (lc : Str → Str) (query : Str) (hq : lc query ≠ [])
    (r : UrlRecord) (t u : Str) (ht : r.title = some t) (hu : r.url = some u) :
    ∃ sc, queryScore lc query r = some sc ∧
      (0 < sc ↔ (List.Sublist (lc query) (lc t) ∨ List.Sublist (lc query) (lc u))) := by
  have h1 := fuzzyMatch_pos_iff lc query t hq
  have h2 := fuzzyMatch_pos_iff lc query u hq
  have hmax : 0 < max ((fuzzyMatch lc query t : ℚ) * 1.5) (fuzzyMatch lc query u : ℚ) ↔
      (List.Sublist (lc query) (lc t) ∨ List.Sublist (lc query) (lc u)) := by
    rw [← h1, ← h2, lt_max_iff]
    constructor
    · rintro (h | h)
      · left
        have : (0 : ℚ) < (fuzzyMatch lc query t : ℚ) := by
          by_contra hn
          have h0 : (fuzzyMatch lc query t : ℚ) ≤ 0 := not_lt.mp hn
          nlinarith
        exact_mod_cast this
      · right; exact_mod_cast h
    · rintro (h | h)
      · left
        have : (0 : ℚ) < (fuzzyMatch lc query t : ℚ) := by exact_mod_cast h
        linarith
      · right; exact_mod_cast h
  unfold queryScore
  simp only [ht, hu]
  split
  · rename_i hpos
    refine ⟨_, rfl, ?_⟩
    constructor
    · intro _; exact hmax.mp hpos
    · intro _
      have hb : (0 : ℚ) ≤ min (((r.visitCount.getD 0 : Nat) : ℚ) / 10) 5 := by
        apply le_min
        · positivity
        · norm_num
      split <;> split <;> linarith
  · rename_i hnpos
    refine ⟨_, rfl, ?_⟩
    constructor
    · intro h; exact absurd h hnpos
    · intro h; exact absurd (hmax.mpr h) hnpos

/-! ## Lemmas on the stable sort -/

theorem filter_orderedInsert {α : Type} (r : α → α → Prop) [DecidableRel r] (p : α → Bool)
    (hp : ∀ a b, p a = true → p b = true → r a b) (a : α) :
    ∀ l : List α, (List.orderedInsert r a l).filter p = (a :: l).filter p := by
  intro l
  induction l with
  | nil => rfl
  | cons b l ih =>
    by_cases hab : r a b
    · simp [List.orderedInsert, hab]
    · have hnot : ¬ (p a = true ∧ p b = true) := fun h => hab (hp a b h.1 h.2)
      simp only [List.orderedInsert, hab, if_false, List.filter_cons, ih]
      by_cases ha : p a = true <;> by_cases hb : p b = true <;> simp_all

theorem filter_insertionSort {α : Type} (r : α → α → Prop) [DecidableRel r] (p : α → Bool)
    (hp : ∀ a b, p a = true → p b = true → r a b) :
    ∀ l : List α, (List.insertionSort r l).filter p = l.filter p := by
  intro l
  induction l with
  | nil => rfl
  | cons a l ih =>
    rw [List.insertionSort, filter_orderedInsert r p hp, List.filter_cons, List.filter_cons, ih]

theorem jsSort_byScore_perm (l : List ScoredRecord) : List.Perm (jsSort byScore l) l :=
  List.perm_insertionSort _ l

theorem jsSort_byScore_sorted (l : List ScoredRecord) :
    (jsSort byScore l).Pairwise (fun a b => b.score ≤ a.score) := by
  haveI : IsTotal ScoredRecord (fun a b => byScore a b ≤ 0) :=
    ⟨fun a b => by
      simp only [byScore, sub_nonpos]
      exact le_total _ _⟩
  haveI : IsTrans ScoredRecord (fun a b => byScore a b ≤ 0) :=
    ⟨fun a b c => by
      simp only [byScore, sub_nonpos]
      exact fun h1 h2 => le_trans h2 h1⟩
  have h := List.sorted_insertionSort (fun a b : ScoredRecord => byScore a b ≤ 0) l
  refine List.Pairwise.imp ?_ h
  intro a b hab
  simpa [byScore] using hab

/-- Stability: records with one score keep the order they had before the sort. -/
theorem jsSort_byScore_filter (l : List ScoredRecord) (c : ℚ) :
    (jsSort byScore l).filter (fun x => decide (x.score = c))
      = l.filter (fun x => decide (x.score = c)) := by
  apply filter_insertionSort
  intro a b ha hb
  simp only [decide_eq_true_eq] at ha hb
  simp [byScore, ha, hb]

theorem jsSort_byScore_stable (l : List ScoredRecord) (a b : ScoredRecord)
    (hab : a.score = b.score) (h : List.Sublist [a, b] (jsSort byScore l)) :
    List.Sublist [a, b] l := by
  have h1 := List.Sublist.filter (fun x : ScoredRecord => decide (x.score = b.score)) h
  rw [jsSort_byScore_filter] at h1
  have h2 : [a, b].filter (fun x : ScoredRecord => decide (x.score = b.score)) = [a, b] := by
    simp [hab]
  rw [h2] at h1
  exact h1.trans (List.filter_sublist _)

/-- Value of `filterUrls` for the empty query. -/
theorem filterUrls_empty (lc : Str → Str) (urls : List UrlItem) :
    filterUrls lc urls [] = some (jsSort byScore
      ((urls.map normalizeItem).map (fun item => { item := item, score := defaultScore item }))) := by
  simp [filterUrls]

/-- Value of `filterUrls` for a non-empty query when every candidate has a url:
no callback throws. -/
theorem filterUrls_query (lc : Str → Str) (urls : List UrlItem) (query : Str)
    (hq : query ≠ []) (hurl : ∀ i ∈ urls, savedUrl i ≠ none) :
    filterUrls lc urls query = some (jsSort byScore
      (((urls.map normalizeItem).map (fun item =>
          ({ item := item, score := (queryScore lc query item).getD 0 } : ScoredRecord))).filter
        (fun item => item.score > 0))) := by
  have hne : query.isEmpty = false := by
    cases query with
    | nil => exact absurd rfl hq
    | cons _ _ => rfl
  have hmap := mapThrow_eq_some
    (fun item => (queryScore lc query item).map
      (fun score => ({ item := item, score := score } : ScoredRecord)))
    (fun item => ({ item := item, score := (queryScore lc query item).getD 0 } : ScoredRecord))
    (urls.map normalizeItem) (by
      intro r hr
      obtain ⟨i, hi, rfl⟩ := List.mem_map.mp hr
      have hu := hurl i hi
      have ht := savedTitle_ne_none i hu
      rw [← normalizeItem_url] at hu
      rw [← normalizeItem_title] at ht
      obtain ⟨u, hu⟩ := Option.ne_none_iff_exists'.mp hu
      obtain ⟨t, ht⟩ := Option.ne_none_iff_exists'.mp ht
      have : ∃ sc, queryScore lc query (normalizeItem i) = some sc := by
        unfold queryScore
        simp only [ht, hu]
        split <;> exact ⟨_, rfl⟩
      obtain ⟨sc, hsc⟩ := this
      simp [hsc])
  simp only [filterUrls, hne, Bool.false_eq_true, if_false, hmap, Option.map_some']

theorem queryScore_pos_eq_matches (lc : Str → Str) (query : Str) (hq : lc query ≠ [])
    (i : UrlItem) (hu : savedUrl i ≠ none) :
    decide ((queryScore lc query (normalizeItem i)).getD 0 > 0)
      = matchesQuery lc query (normalizeItem i) := by
  have ht := savedTitle_ne_none i hu
  rw [← normalizeItem_url] at hu
  rw [← normalizeItem_title] at ht
  obtain ⟨u, hu⟩ := Option.ne_none_iff_exists'.mp hu
  obtain ⟨t, ht⟩ := Option.ne_none_iff_exists'.mp ht
  obtain ⟨sc, hsc, hiff⟩ := queryScore_pos_iff lc query hq (normalizeItem i) t u ht hu
  simp only [hsc, Option.getD_some, matchesQuery, ht, hu, gt_iff_lt]
  by_cases h : 0 < sc
  · have := hiff.mp h
    simp only [h, decide_True]
    rcases this with h1 | h1 <;> simp [h1]
  · have h1 := mt hiff.mpr h
    push_neg at h1
    simp [h, h1.1, h1.2]

/-- C2: for a non-empty query (and candidates that all carry a url, so that no
call of `fuzzyMatch` throws) `filterUrls(query)` returns, up to order, exactly
the normalized candidates whose title or url contains the query as a
case-insensitive subsequence, each as often as it occurs, and every returned
record has a positive score. -/
theorem filterUrls_exact_matches (lc : Str → Str) (hlc : ∀ s : Str, s ≠ [] → lc s ≠ [])
    (urls : List UrlItem) (query : Str) (hq : query ≠ [])
    (hurl : ∀ i ∈ urls, savedUrl i ≠ none) :
    ∃ out, filterUrls lc urls query = some out ∧
      List.Perm (out.map (fun r => r.item))
        ((urls.map normalizeItem).filter (fun r => matchesQuery lc query r)) ∧
      ∀ r ∈ out, 0 < r.score := by
  refine ⟨_, filterUrls_query lc urls query hq hurl, ?_, ?_⟩
  · refine ((jsSort_byScore_perm _).map _).trans ?_
    apply List.Perm.of_eq
    rw [List.filter_map, List.map_map]
    have hfun : ((fun r : ScoredRecord => r.item) ∘
        (fun item => ({ item := item, score := (queryScore lc query item).getD 0 } :
          ScoredRecord))) = id := by
      funext i; rfl
    rw [hfun, List.map_id]
    apply List.filter_congr
    intro r hr
    obtain ⟨i, hi, rfl⟩ := List.mem_map.mp hr
    simp only [Function.comp]
    exact queryScore_pos_eq_matches lc query (hlc query hq) i (hurl i hi)
  · intro r hr
    have hr2 := (jsSort_byScore_perm _).mem_iff.mp hr
    have := (List.mem_filter.mp hr2).2
    simpa using this

/-- C2 at the candidates C, B, A and the query "c". -/
theorem filterUrls_exact_matches_witness :
    (∀ s : Str, s ≠ [] → asciiLower s ≠ []) ∧ lit "c" ≠ [] ∧
    (∀ i ∈ [UrlItem.obj sampleC, UrlItem.obj sampleB, UrlItem.obj sampleA],
      savedUrl i ≠ none) ∧
    ∃ out, filterUrls asciiLower [UrlItem.obj sampleC, UrlItem.obj sampleB, UrlItem.obj sampleA]
        (lit "c") = some out ∧
      List.Perm (out.map (fun r => r.item))
        (([UrlItem.obj sampleC, UrlItem.obj sampleB, UrlItem.obj sampleA].map
          normalizeItem).filter (fun r => matchesQuery asciiLower (lit "c") r)) ∧
      ∀ r ∈ out, 0 < r.score :=
  ⟨asciiLower_ne_nil, by decide, by decide,
    filterUrls_exact_matches asciiLower asciiLower_ne_nil
      [UrlItem.obj sampleC, UrlItem.obj sampleB, UrlItem.obj sampleA] (lit "c")
      (by decide) (by decide)⟩

/-- C3: for every query, empty or not (with a non-empty query the candidates
all carry a url, so that no call of `fuzzyMatch` throws), the list returned by
`filterUrls` has non-increasing scores, and two returned records with equal
score stand in the order their candidates have in the candidate list. -/
theorem filterUrls_sorted_stable (lc : Str → Str) (urls : List UrlItem) (query : Str)
    (hurl : query ≠ [] → ∀ i ∈ urls, savedUrl i ≠ none) :
    ∃ out, filterUrls lc urls query = some out ∧
      out.Pairwise (fun a b => b.score ≤ a.score) ∧
      ∀ a b : ScoredRecord, a.score = b.score → List.Sublist [a, b] out →
        List.Sublist [a.item, b.item] (urls.map normalizeItem) := by
  by_cases hq : query = []
  · subst hq
    refine ⟨_, filterUrls_empty lc urls, jsSort_byScore_sorted _, ?_⟩
    intro a b hab hsub
    have h1 := jsSort_byScore_stable _ a b hab hsub
    have h2 := h1.map (fun r : ScoredRecord => r.item)
    simpa [List.map_map, Function.comp] using h2
  · refine ⟨_, filterUrls_query lc urls query hq (hurl hq), jsSort_byScore_sorted _, ?_⟩
    intro a b hab hsub
    have h1 := (jsSort_byScore_stable _ a b hab hsub).trans (List.filter_sublist _)
    have h2 := h1.map (fun r : ScoredRecord => r.item)
    simpa [List.map_map, Function.comp] using h2

/-- C3 at the candidates C, B, A and the query "c". -/
theorem filterUrls_sorted_stable_witness :
    (lit "c" ≠ [] → ∀ i ∈ [UrlItem.obj sampleC, UrlItem.obj sampleB, UrlItem.obj sampleA],
      savedUrl i ≠ none) ∧
    ∃ out, filterUrls asciiLower [UrlItem.obj sampleC, UrlItem.obj sampleB, UrlItem.obj sampleA]
        (lit "c") = some out ∧
      out.Pairwise (fun a b => b.score ≤ a.score) ∧
      ∀ a b : ScoredRecord, a.score = b.score → List.Sublist [a, b] out →
        List.Sublist [a.item, b.item]
          ([UrlItem.obj sampleC, UrlItem.obj sampleB, UrlItem.obj sampleA].map normalizeItem) :=
  ⟨by decide,
    filterUrls_sorted_stable asciiLower
      [UrlItem.obj sampleC, UrlItem.obj sampleB, UrlItem.obj sampleA] (lit "c") (by decide)⟩

/-! ## Default ordering -/

theorem defaultScore_topSite (r : UrlRecord) (h : r.isTopSite = true) :
    101 ≤ defaultScore r ∧
      (defaultScore r = 101 → r.isSaved = false ∧ r.visitCount.getD 0 = 0) := by
  have hv : (0 : ℚ) ≤ min ((r.visitCount.getD 0 : Nat) : ℚ) 50 := le_min (by positivity) (by norm_num)
  unfold defaultScore
  simp only [h, if_true]
  constructor
  · split <;> linarith
  · intro heq
    cases hs : r.isSaved with
    | true =>
      simp only [hs, if_true] at heq
      linarith
    | false =>
      simp only [hs, Bool.false_eq_true, if_false] at heq
      refine ⟨rfl, ?_⟩
      have h0 : min ((r.visitCount.getD 0 : Nat) : ℚ) 50 = 0 := by linarith
      rcases min_choice ((r.visitCount.getD 0 : Nat) : ℚ) 50 with h1 | h1
      · rw [h1] at h0
        exact_mod_cast h0
      · rw [h1] at h0
        norm_num at h0

theorem defaultScore_not_topSite (r : UrlRecord) (h : r.isTopSite = false) :
    defaultScore r ≤ 101 ∧
      (defaultScore r = 101 → r.isSaved = true ∧ 50 ≤ r.visitCount.getD 0) := by
  have hv : min ((r.visitCount.getD 0 : Nat) : ℚ) 50 ≤ 50 := min_le_right _ _
  unfold defaultScore
  simp only [h, Bool.false_eq_true, if_false]
  constructor
  · split <;> linarith
  · intro heq
    cases hs : r.isSaved with
    | false =>
      simp only [hs, Bool.false_eq_true, if_false] at heq
      linarith
    | true =>
      simp only [hs, if_true] at heq
      refine ⟨rfl, ?_⟩
      have h0 : min ((r.visitCount.getD 0 : Nat) : ℚ) 50 = 50 := by linarith
      have h1 : (50 : ℚ) ≤ ((r.visitCount.getD 0 : Nat) : ℚ) := by
        rw [← h0]; exact min_le_left _ _
      exact_mod_cast h1

theorem defaultScore_saved (r : UrlRecord) (ht : r.isTopSite = false) (h : r.isSaved = true) :
    51 ≤ defaultScore r ∧ (defaultScore r = 51 → r.visitCount.getD 0 = 0) := by
  have hv : (0 : ℚ) ≤ min ((r.visitCount.getD 0 : Nat) : ℚ) 50 := le_min (by positivity) (by norm_num)
  unfold defaultScore
  simp only [ht, h, Bool.false_eq_true, if_false, if_true]
  constructor
  · linarith
  · intro heq
    have h0 : min ((r.visitCount.getD 0 : Nat) : ℚ) 50 = 0 := by linarith
    rcases min_choice ((r.visitCount.getD 0 : Nat) : ℚ) 50 with h1 | h1
    · rw [h1] at h0
      exact_mod_cast h0
    · rw [h1] at h0
      norm_num at h0

theorem defaultScore_plain (r : UrlRecord) (ht : r.isTopSite = false) (h : r.isSaved = false) :
    defaultScore r ≤ 51 ∧ (defaultScore r = 51 → 50 ≤ r.visitCount.getD 0) := by
  have hv : min ((r.visitCount.getD 0 : Nat) : ℚ) 50 ≤ 50 := min_le_right _ _
  unfold defaultScore
  simp only [ht, h, Bool.false_eq_true, if_false]
  constructor
  · linarith
  · intro heq
    have h0 : min ((r.visitCount.getD 0 : Nat) : ℚ) 50 = 50 := by linarith
    have h1 : (50 : ℚ) ≤ ((r.visitCount.getD 0 : Nat) : ℚ) := by
      rw [← h0]; exact min_le_left _ _
    exact_mod_cast h1

/-- Records returned for the empty query carry the default score, and a record
that stands before another one has at least its score. -/
theorem filterUrls_empty_pair (urls : List UrlItem) (a b : ScoredRecord)
    (h : List.Sublist [b, a] (jsSort byScore
      ((urls.map normalizeItem).map (fun item =>
        ({ item := item, score := defaultScore item } : ScoredRecord))))) :
    a.score = defaultScore a.item ∧ b.score = defaultScore b.item ∧ a.score ≤ b.score ∧
      (a.score = b.score → List.Sublist [b.item, a.item] (urls.map normalizeItem)) := by
  have hmem : ∀ x ∈ [b, a], x.score = defaultScore x.item := by
    intro x hx
    have h1 := (jsSort_byScore_perm _).mem_iff.mp (h.subset hx)
    obtain ⟨r, _, rfl⟩ := List.mem_map.mp h1
    rfl
  have hsorted := (jsSort_byScore_sorted _).sublist h
  refine ⟨hmem a (by simp), hmem b (by simp), ?_, ?_⟩
  · simpa using hsorted
  · intro heq
    have h1 := jsSort_byScore_stable _ b a heq.symm h
    have h2 := h1.map (fun r : ScoredRecord => r.item)
    simpa [List.map_map, Function.comp] using h2

/-- Where the default order does follow "top site, then saved": for the empty
query a candidate that is not a top site is returned before a top site only
when both have score 101 (the top site is unsaved without visits, the other is
saved with at least 50 visits) and it already precedes the top site in the
candidate list; among candidates that are not top sites, an unsaved one is
returned before a saved one only when both have score 51 (the saved one without
visits, the unsaved one with at least 50) and it already precedes the saved one
in the candidate list. The candidates C(visits=100), B(saved, visits=5),
A(topSite) are returned as A, B, C. -/
theorem filterUrls_default_order (lc : Str → Str) (urls : List UrlItem) :
    ∃ out, filterUrls lc urls [] = some out ∧
      (∀ a b : ScoredRecord, List.Sublist [b, a] out →
        a.item.isTopSite = true → b.item.isTopSite = false →
          a.score = 101 ∧ b.score = 101 ∧
          a.item.isSaved = false ∧ a.item.visitCount.getD 0 = 0 ∧
          b.item.isSaved = true ∧ 50 ≤ b.item.visitCount.getD 0 ∧
          List.Sublist [b.item, a.item] (urls.map normalizeItem)) ∧
      (∀ a b : ScoredRecord, List.Sublist [b, a] out →
        a.item.isTopSite = false → b.item.isTopSite = false →
        a.item.isSaved = true → b.item.isSaved = false →
          a.score = 51 ∧ b.score = 51 ∧
          a.item.visitCount.getD 0 = 0 ∧ 50 ≤ b.item.visitCount.getD 0 ∧
          List.Sublist [b.item, a.item] (urls.map normalizeItem)) ∧
      (filterUrls lc [UrlItem.obj sampleC, UrlItem.obj sampleB, UrlItem.obj sampleA] []).map
          (fun l => l.map (fun r => (r.item.url, r.score)))
        = some [(some (lit "a.com"), 101), (some (lit "b.com"), 56), (some (lit "c.com"), 51)] := by
  refine ⟨_, filterUrls_empty lc urls, ?_, ?_, ?_⟩
  · intro a b hsub ha hb
    obtain ⟨hsa, hsb, hle, hst⟩ := filterUrls_empty_pair urls a b hsub
    have h1 := defaultScore_topSite a.item ha
    have h2 := defaultScore_not_topSite b.item hb
    rw [← hsa] at h1
    rw [← hsb] at h2
    have ea : a.score = 101 := le_antisymm (le_trans hle h2.1) h1.1
    have eb : b.score = 101 := le_antisymm h2.1 (le_trans h1.1 hle)
    exact ⟨ea, eb, (h1.2 ea).1, (h1.2 ea).2, (h2.2 eb).1, (h2.2 eb).2, hst (ea.trans eb.symm)⟩
  · intro a b hsub hta htb ha hb
    obtain ⟨hsa, hsb, hle, hst⟩ := filterUrls_empty_pair urls a b hsub
    have h1 := defaultScore_saved a.item hta ha
    have h2 := defaultScore_plain b.item htb hb
    rw [← hsa] at h1
    rw [← hsb] at h2
    have ea : a.score = 51 := le_antisymm (le_trans hle h2.1) h1.1
    have eb : b.score = 51 := le_antisymm h2.1 (le_trans h1.1 hle)
    exact ⟨ea, eb, h1.2 ea, h2.2 eb, hst (ea.trans eb.symm)⟩
  · norm_num [filterUrls, jsSort, byScore, defaultScore, normalizeItem, sampleA, sampleB,
      sampleC, jsOr, truthy]

/-- C4: the empty query does not always put top sites first and saved
candidates next. With the candidates [saved with 50 visits, top site] it
returns the candidate that is not a top site first, both scores being 101: the
visit bonus, capped at 50, reaches the saved bonus of 50. With [unsaved with 50
visits, saved] it returns the unsaved one first, both scores being 51. The
comparator of `getAllUrls`, which orders by top site, then saved, then visit
count, puts the top site and the saved record first on the same records. -/
theorem filterUrls_default_tie :
    tieTop.isTopSite = true ∧ tieSaved.isTopSite = false ∧
    (filterUrls asciiLower [UrlItem.obj tieSaved, UrlItem.obj tieTop] []).map
        (fun l => l.map (fun r => (r.item.url, r.score)))
      = some [(some (lit "saved.com"), 101), (some (lit "top.com"), 101)] ∧
    tieBare.isSaved = true ∧ tiePlain.isSaved = false ∧
    tieBare.isTopSite = false ∧ tiePlain.isTopSite = false ∧
    (filterUrls asciiLower [UrlItem.obj tiePlain, UrlItem.obj tieBare] []).map
        (fun l => l.map (fun r => (r.item.url, r.score)))
      = some [(some (lit "plain.com"), 51), (some (lit "bare.com"), 51)] ∧
    (jsSort compareMerged [tieSaved, tieTop]).map (fun r => r.url)
      = [some (lit "top.com"), some (lit "saved.com")] ∧
    (jsSort compareMerged [tiePlain, tieBare]).map (fun r => r.url)
      = [some (lit "bare.com"), some (lit "plain.com")] := by
  refine ⟨rfl, rfl, ?_, rfl, rfl, rfl, rfl, ?_, by decide, by decide⟩
  · norm_num [filterUrls, jsSort, byScore, defaultScore, normalizeItem, tieSaved, tieTop,
      jsOr, truthy]
  · norm_num [filterUrls, jsSort, byScore, defaultScore, normalizeItem, tiePlain, tieBare,
      jsOr, truthy]

/-! ## Lemmas on the url map -/

theorem UrlMap.get_nil (k : Option Str) : UrlMap.get [] k = none := rfl

theorem UrlMap.get_cons (e : Option Str × UrlRecord) (m : UrlMap) (k : Option Str) :
    UrlMap.get (e :: m) k = if e.1 = k then some e.2 else UrlMap.get m k := by
  unfold UrlMap.get
  by_cases h : e.1 = k
  · simp [List.find?, h]
  · simp [List.find?, h]

theorem UrlMap.has_cons (e : Option Str × UrlRecord) (m : UrlMap) (k : Option Str) :
    UrlMap.has (e :: m) k = (decide (e.1 = k) || UrlMap.has m k) := by
  simp [UrlMap.has]

theorem UrlMap.modify_cons (e : Option Str × UrlRecord) (m : UrlMap) (k : Option Str)
    (f : UrlRecord → UrlRecord) :
    UrlMap.modify (e :: m) k f
      = (if e.1 = k then (e.1, f e.2) else e) :: UrlMap.modify m k f := rfl

theorem UrlMap.has_eq_get (m : UrlMap) (k : Option Str) :
    UrlMap.has m k = (UrlMap.get m k).isSome := by
  induction m with
  | nil => rfl
  | cons e m ih =>
    rw [UrlMap.has_cons, UrlMap.get_cons, ih]
    by_cases h : e.1 = k <;> simp [h]

theorem UrlMap.get_modify (m : UrlMap) (k k' : Option Str) (f : UrlRecord → UrlRecord) :
    UrlMap.get (UrlMap.modify m k f) k'
      = if k' = k then (UrlMap.get m k).map f else UrlMap.get m k' := by
  induction m with
  | nil => simp [UrlMap.get_nil, UrlMap.modify]
  | cons e m ih =>
    rw [UrlMap.modify_cons, UrlMap.get_cons, UrlMap.get_cons, UrlMap.get_cons, ih]
    by_cases h : e.1 = k
    · by_cases h' : k' = k
      · subst h'
        simp [h]
      · have h2 : ¬ e.1 = k' := fun hh => h' (hh.symm.trans h)
        have h3 : ¬ k = k' := fun hh => h' hh.symm
        simp [h, h', h2, h3]
    · by_cases h' : k' = k
      · subst h'
        simp [h]
      · by_cases h3 : e.1 = k' <;> simp [h, h', h3]

theorem UrlMap.get_append_single (m : UrlMap) (k k' : Option Str) (v : UrlRecord) :
    UrlMap.get (m ++ [(k, v)]) k'
      = match UrlMap.get m k' with
        | some r => some r
        | none => if k = k' then some v else none := by
  induction m with
  | nil =>
    rw [List.nil_append, UrlMap.get_cons, UrlMap.get_nil]
  | cons e m ih =>
    rw [List.cons_append, UrlMap.get_cons, UrlMap.get_cons, ih]
    by_cases h : e.1 = k' <;> simp [h]

theorem UrlMap.set_of_has (m : UrlMap) (k : Option Str) (v : UrlRecord)
    (h : UrlMap.has m k = true) : UrlMap.set m k v = UrlMap.modify m k (fun _ => v) := by
  unfold UrlMap.set UrlMap.modify
  rw [if_pos h]
  apply List.map_congr_left
  intro e _
  by_cases h : e.1 = k <;> simp [h]

theorem UrlMap.set_of_not_has (m : UrlMap) (k : Option Str) (v : UrlRecord)
    (h : ¬ UrlMap.has m k = true) : UrlMap.set m k v = m ++ [(k, v)] := by
  unfold UrlMap.set
  rw [if_neg h]

theorem UrlMap.get_set (m : UrlMap) (k k' : Option Str) (v : UrlRecord) :
    UrlMap.get (UrlMap.set m k v) k' = if k' = k then some v else UrlMap.get m k' := by
  by_cases hh : UrlMap.has m k = true
  · rw [UrlMap.set_of_has m k v hh, UrlMap.get_modify]
    by_cases h' : k' = k
    · rw [UrlMap.has_eq_get] at hh
      obtain ⟨r, hr⟩ := Option.isSome_iff_exists.mp hh
      simp [h', hr]
    · simp [h']
  · rw [UrlMap.set_of_not_has m k v hh, UrlMap.get_append_single]
    have hnone : UrlMap.get m k = none := by
      rw [UrlMap.has_eq_get] at hh
      simpa using hh
    by_cases h' : k' = k
    · subst h'
      simp [hnone]
    · have h2 : ¬ k = k' := fun h => h' h.symm
      simp only [h2, if_false, h']
      cases UrlMap.get m k' <;> rfl

theorem UrlMap.keys_modify (m : UrlMap) (k : Option Str) (f : UrlRecord → UrlRecord) :
    (UrlMap.modify m k f).map (fun e => e.1) = m.map (fun e => e.1) := by
  unfold UrlMap.modify
  rw [List.map_map]
  apply List.map_congr_left
  intro e _
  by_cases h : e.1 = k <;> simp [h]

theorem UrlMap.has_iff_mem_keys (m : UrlMap) (k : Option Str) :
    UrlMap.has m k = true ↔ k ∈ m.map (fun e => e.1) := by
  unfold UrlMap.has
  simp only [List.any_eq_true, decide_eq_true_eq, List.mem_map]

theorem UrlMap.wellKeyed_modify (m : UrlMap) (k : Option Str) (f : UrlRecord → UrlRecord)
    (hm : UrlMap.WellKeyed m) (hf : ∀ e ∈ m, e.1 = k → (f e.2).url = k) :
    UrlMap.WellKeyed (UrlMap.modify m k f) := by
  refine ⟨by rw [UrlMap.keys_modify]; exact hm.1, ?_⟩
  intro e he
  unfold UrlMap.modify at he
  obtain ⟨e0, he0, rfl⟩ := List.mem_map.mp he
  by_cases h : e0.1 = k
  · simp only [h, if_true]
    exact hf e0 he0 h
  · simp only [h, if_false]
    exact hm.2 e0 he0

theorem UrlMap.wellKeyed_set (m : UrlMap) (k : Option Str) (v : UrlRecord)
    (hm : UrlMap.WellKeyed m) (hv : v.url = k) : UrlMap.WellKeyed (UrlMap.set m k v) := by
  by_cases hh : UrlMap.has m k = true
  · rw [UrlMap.set_of_has m k v hh]
    exact UrlMap.wellKeyed_modify m k _ hm (fun _ _ _ => hv)
  · rw [UrlMap.set_of_not_has m k v hh]
    have hk : k ∉ m.map (fun e => e.1) := fun h => hh ((UrlMap.has_iff_mem_keys m k).mpr h)
    refine ⟨?_, ?_⟩
    · rw [List.map_append]
      apply List.Nodup.append hm.1 (List.nodup_singleton _)
      intro x hx hx2
      simp only [List.map_cons, List.map_nil, List.mem_singleton] at hx2
      exact hk (hx2 ▸ hx)
    · intro e he
      rcases List.mem_append.mp he with h | h
      · exact hm.2 e h
      · simp only [List.mem_singleton] at h
        subst h
        exact hv

theorem UrlMap.wellKeyed_nil : UrlMap.WellKeyed [] :=
  ⟨List.nodup_nil, fun _ h => absurd h (List.not_mem_nil _)⟩

theorem UrlMap.get_isSome_iff (m : UrlMap) (k : Option Str) :
    (UrlMap.get m k).isSome = true ↔ k ∈ m.map (fun e => e.1) := by
  rw [← UrlMap.has_eq_get, UrlMap.has_iff_mem_keys]

/-- In a well-keyed map the records with url `k` are the entry stored under `k`. -/
theorem UrlMap.values_filter (m : UrlMap) (k : Option Str) (hm : UrlMap.WellKeyed m) :
    (UrlMap.values m).filter (fun r => r.url = k) = (UrlMap.get m k).toList := by
  induction m with
  | nil => rfl
  | cons e m ih =>
    have hm2 : UrlMap.WellKeyed m :=
      ⟨(List.nodup_cons.mp hm.1).2, fun x hx => hm.2 x (List.mem_cons_of_mem _ hx)⟩
    have he : e.2.url = e.1 := hm.2 e (List.mem_cons_self _ _)
    have hnot : e.1 ∉ m.map (fun e => e.1) := (List.nodup_cons.mp hm.1).1
    rw [UrlMap.get_cons]
    unfold UrlMap.values at *
    rw [List.map_cons, List.filter_cons]
    by_cases h : e.1 = k
    · have hnone : UrlMap.get m k = none := by
        have := mt (UrlMap.get_isSome_iff m k).mp (h ▸ hnot)
        simpa using this
      rw [ih hm2, hnone]
      simp [he, h]
    · rw [ih hm2]
      simp [he, h]

theorem UrlMap.values_urls (m : UrlMap) (hm : UrlMap.WellKeyed m) :
    (UrlMap.values m).map (fun r => r.url) = m.map (fun e => e.1) := by
  unfold UrlMap.values
  rw [List.map_map]
  apply List.map_congr_left
  intro e he
  exact hm.2 e he

/-! ## Lemmas on the three loops of getAllUrls -/

theorem addTopSites_cons (m : UrlMap) (item : UrlRecord) (rest : List UrlRecord) :
    addTopSites m (item :: rest)
      = addTopSites (UrlMap.set m item.url { item with isTopSite := true }) rest := rfl

theorem addHistory_cons (m : UrlMap) (item : UrlRecord) (rest : List UrlRecord) :
    addHistory m (item :: rest)
      = addHistory (if UrlMap.has m item.url then
          UrlMap.modify m item.url
            (fun existing => { existing with visitCount := item.visitCount })
        else UrlMap.set m item.url item) rest := rfl

theorem addSaved_cons (m : UrlMap) (item : UrlItem) (rest : List UrlItem) :
    addSaved m (item :: rest)
      = addSaved (if UrlMap.has m (savedUrl item) then
          UrlMap.modify m (savedUrl item) (markSaved item)
        else UrlMap.set m (savedUrl item)
          { url := savedUrl item, title := savedTitle item, source := none,
            isTopSite := false, isSaved := true, visitCount := none }) rest := rfl

theorem markSaved_url (item : UrlItem) (r : UrlRecord) : (markSaved item r).url = r.url := by
  unfold markSaved
  split <;> rfl

theorem markSaved_isTopSite (item : UrlItem) (r : UrlRecord) :
    (markSaved item r).isTopSite = r.isTopSite := by
  unfold markSaved
  split <;> rfl

theorem markSaved_visitCount (item : UrlItem) (r : UrlRecord) :
    (markSaved item r).visitCount = r.visitCount := by
  unfold markSaved
  split <;> rfl

theorem addTopSites_wellKeyed (topSites : List UrlRecord) :
    ∀ m : UrlMap, UrlMap.WellKeyed m → UrlMap.WellKeyed (addTopSites m topSites) := by
  induction topSites with
  | nil => intro m hm; exact hm
  | cons item rest ih =>
    intro m hm
    rw [addTopSites_cons]
    exact ih _ (UrlMap.wellKeyed_set m _ _ hm rfl)

theorem addHistory_wellKeyed (historyUrls : List UrlRecord) :
    ∀ m : UrlMap, UrlMap.WellKeyed m → UrlMap.WellKeyed (addHistory m historyUrls) := by
  induction historyUrls with
  | nil => intro m hm; exact hm
  | cons item rest ih =>
    intro m hm
    rw [addHistory_cons]
    apply ih
    split
    · exact UrlMap.wellKeyed_modify m _ _ hm (fun e he hk => (hm.2 e he).trans hk)
    · exact UrlMap.wellKeyed_set m _ _ hm rfl

theorem addSaved_wellKeyed (savedUrls : List UrlItem) :
    ∀ m : UrlMap, UrlMap.WellKeyed m → UrlMap.WellKeyed (addSaved m savedUrls) := by
  induction savedUrls with
  | nil => intro m hm; exact hm
  | cons item rest ih =>
    intro m hm
    rw [addSaved_cons]
    apply ih
    split
    · exact UrlMap.wellKeyed_modify m _ _ hm
        (fun e he hk => (markSaved_url item e.2).trans ((hm.2 e he).trans hk))
    · exact UrlMap.wellKeyed_set m _ _ hm rfl

theorem mergedMap_wellKeyed (savedUrls : List UrlItem) (historyUrls topSites : List UrlRecord) :
    UrlMap.WellKeyed (mergedMap savedUrls historyUrls topSites) :=
  addSaved_wellKeyed _ _ (addHistory_wellKeyed _ _ (addTopSites_wellKeyed _ _ UrlMap.wellKeyed_nil))

/-- Entry stored under `k` after the top-sites loop: only the items with url
`k` act on it. -/
theorem get_addTopSites (topSites : List UrlRecord) (k : Option Str) :
    ∀ m : UrlMap, UrlMap.get (addTopSites m topSites) k
      = (topSites.filter (fun r => r.url = k)).foldl topStep (UrlMap.get m k) := by
  induction topSites with
  | nil => intro m; rfl
  | cons item rest ih =>
    intro m
    rw [addTopSites_cons, ih, UrlMap.get_set, List.filter_cons]
    by_cases h : item.url = k
    · have h2 : k = item.url := h.symm
      simp [h, topStep]
    · have h2 : ¬ k = item.url := fun hh => h hh.symm
      simp [h, h2]

/-- Entry stored under `k` after the history loop. -/
theorem get_addHistory (historyUrls : List UrlRecord) (k : Option Str) :
    ∀ m : UrlMap, UrlMap.get (addHistory m historyUrls) k
      = (historyUrls.filter (fun r => r.url = k)).foldl historyStep (UrlMap.get m k) := by
  induction historyUrls with
  | nil => intro m; rfl
  | cons item rest ih =>
    intro m
    rw [addHistory_cons, ih, List.filter_cons]
    by_cases hh : UrlMap.has m item.url = true
    · rw [if_pos hh, UrlMap.get_modify]
      rw [UrlMap.has_eq_get] at hh
      obtain ⟨r, hr⟩ := Option.isSome_iff_exists.mp hh
      by_cases h : item.url = k
      · subst h
        simp [hr, historyStep]
      · have h2 : ¬ k = item.url := fun hh => h hh.symm
        simp [h, h2]
    · rw [if_neg hh, UrlMap.get_set]
      have hnone : UrlMap.get m item.url = none := by
        rw [UrlMap.has_eq_get] at hh
        simpa using hh
      by_cases h : item.url = k
      · subst h
        simp [hnone, historyStep]
      · have h2 : ¬ k = item.url := fun hh => h hh.symm
        simp [h, h2]

/-- Entry stored under `k` after the saved loop. -/
theorem get_addSaved (savedUrls : List UrlItem) (k : Option Str) :
    ∀ m : UrlMap, UrlMap.get (addSaved m savedUrls) k
      = (savedUrls.filter (fun i => savedUrl i = k)).foldl savedStep (UrlMap.get m k) := by
  induction savedUrls with
  | nil => intro m; rfl
  | cons item rest ih =>
    intro m
    rw [addSaved_cons, ih, List.filter_cons]
    by_cases hh : UrlMap.has m (savedUrl item) = true
    · rw [if_pos hh, UrlMap.get_modify]
      rw [UrlMap.has_eq_get] at hh
      obtain ⟨r, hr⟩ := Option.isSome_iff_exists.mp hh
      by_cases h : savedUrl item = k
      · subst h
        simp [hr, savedStep]
      · have h2 : ¬ k = savedUrl item := fun hh => h hh.symm
        simp [h, h2]
    · rw [if_neg hh, UrlMap.get_set]
      have hnone : UrlMap.get m (savedUrl item) = none := by
        rw [UrlMap.has_eq_get] at hh
        simpa using hh
      by_cases h : savedUrl item = k
      · subst h
        simp [hnone, savedStep]
      · have h2 : ¬ k = savedUrl item := fun hh => h hh.symm
        simp [h, h2]

theorem foldl_step_isSome {α β : Type} (step : Option β → α → Option β)
    (hs : ∀ o x, (step o x).isSome = true) :
    ∀ (l : List α) (o : Option β), (o.isSome = true ∨ l ≠ []) →
      (l.foldl step o).isSome = true := by
  intro l
  induction l with
  | nil =>
    intro o h
    rcases h with h | h
    · exact h
    · exact absurd rfl h
  | cons x rest ih =>
    intro o _
    exact ih (step o x) (Or.inl (hs o x))

theorem topStep_isSome (o : Option UrlRecord) (x : UrlRecord) : (topStep o x).isSome = true := rfl

theorem historyStep_isSome (o : Option UrlRecord) (x : UrlRecord) :
    (historyStep o x).isSome = true := by
  cases o <;> rfl

theorem savedStep_isSome (o : Option UrlRecord) (x : UrlItem) :
    (savedStep o x).isSome = true := by
  cases o <;> rfl

theorem filter_ne_nil_of_mem_map {α β : Type} [DecidableEq β] (f : α → β) (l : List α) (k : β)
    (h : k ∈ l.map f) : l.filter (fun x => f x = k) ≠ [] := by
  obtain ⟨x, hx, hfx⟩ := List.mem_map.mp h
  intro hnil
  have : x ∈ l.filter (fun x => f x = k) := List.mem_filter.mpr ⟨hx, by simpa using hfx⟩
  rw [hnil] at this
  exact absurd this (List.not_mem_nil _)

/-- Every url of a source is a key of the merged map. -/
theorem mergedMap_get_isSome (savedUrls : List UrlItem) (historyUrls topSites : List UrlRecord)
    (k : Option Str)
    (hk : k ∈ topSites.map (fun r => r.url) ∨ k ∈ historyUrls.map (fun r => r.url) ∨
      k ∈ savedUrls.map savedUrl) :
    (UrlMap.get (mergedMap savedUrls historyUrls topSites) k).isSome = true := by
  unfold mergedMap
  rw [get_addSaved, get_addHistory, get_addTopSites]
  apply foldl_step_isSome savedStep savedStep_isSome
  by_cases h3 : k ∈ savedUrls.map savedUrl
  · exact Or.inr (filter_ne_nil_of_mem_map savedUrl savedUrls k h3)
  · left
    apply foldl_step_isSome historyStep historyStep_isSome
    by_cases h2 : k ∈ historyUrls.map (fun r => r.url)
    · exact Or.inr (filter_ne_nil_of_mem_map (fun r : UrlRecord => r.url) historyUrls k h2)
    · left
      apply foldl_step_isSome topStep topStep_isSome
      right
      have h1 : k ∈ topSites.map (fun r => r.url) := by
        rcases hk with h | h | h
        · exact h
        · exact absurd h h2
        · exact absurd h h3
      exact filter_ne_nil_of_mem_map (fun r : UrlRecord => r.url) topSites k h1

theorem getAllUrls_perm (savedUrls : List UrlItem) (historyUrls topSites : List UrlRecord) :
    List.Perm (getAllUrls savedUrls historyUrls topSites)
      (UrlMap.values (mergedMap savedUrls historyUrls topSites)) :=
  List.perm_insertionSort _ _

/-- The records of the output with url `k` are the entry of the merged map
stored under `k`. -/
theorem getAllUrls_filter (savedUrls : List UrlItem) (historyUrls topSites : List UrlRecord)
    (k : Option Str) (r : UrlRecord)
    (h : UrlMap.get (mergedMap savedUrls historyUrls topSites) k = some r) :
    (getAllUrls savedUrls historyUrls topSites).filter (fun x => x.url = k) = [r] := by
  have hp := (getAllUrls_perm savedUrls historyUrls topSites).filter (fun x => x.url = k)
  rw [UrlMap.values_filter _ k (mergedMap_wellKeyed _ _ _), h] at hp
  exact List.perm_singleton.mp hp

/-- C5: the list produced by `getAllUrls` holds no two records with the same
url, and every url that occurs in any of the three sources (as a top site, in
history, as a saved string or a saved record) has exactly one record. -/
theorem getAllUrls_url_unique (savedUrls : List UrlItem) (historyUrls topSites : List UrlRecord) :
    ((getAllUrls savedUrls historyUrls topSites).map (fun r => r.url)).Nodup ∧
    ∀ k : Option Str,
      (k ∈ topSites.map (fun r => r.url) ∨ k ∈ historyUrls.map (fun r => r.url) ∨
        k ∈ savedUrls.map savedUrl) →
      ∃ r, (getAllUrls savedUrls historyUrls topSites).filter (fun x => x.url = k) = [r] := by
  constructor
  · have hp := (getAllUrls_perm savedUrls historyUrls topSites).map (fun r => r.url)
    rw [UrlMap.values_urls _ (mergedMap_wellKeyed _ _ _)] at hp
    exact hp.nodup_iff.mpr (mergedMap_wellKeyed savedUrls historyUrls topSites).1
  · intro k hk
    obtain ⟨r, hr⟩ := Option.isSome_iff_exists.mp
      (mergedMap_get_isSome savedUrls historyUrls topSites k hk)
    exact ⟨r, getAllUrls_filter savedUrls historyUrls topSites k r hr⟩

theorem foldl_topStep (l : List UrlRecord) :
    ∀ o : Option UrlRecord, (l ≠ [] ∨ ∃ r, o = some r ∧ r.isTopSite = true) →
      ∃ r, l.foldl topStep o = some r ∧ r.isTopSite = true := by
  induction l with
  | nil =>
    intro o h
    rcases h with h | h
    · exact absurd rfl h
    · exact h
  | cons x rest ih =>
    intro o _
    exact ih (topStep o x) (Or.inr ⟨_, rfl, rfl⟩)

theorem foldl_savedStep (l : List UrlItem) :
    ∀ r : UrlRecord, ∃ r', l.foldl savedStep (some r) = some r' ∧
      r'.isTopSite = r.isTopSite ∧ r'.visitCount = r.visitCount := by
  induction l with
  | nil => intro r; exact ⟨r, rfl, rfl, rfl⟩
  | cons x rest ih =>
    intro r
    obtain ⟨r', h1, h2, h3⟩ := ih (markSaved x r)
    exact ⟨r', h1, h2.trans (markSaved_isTopSite x r), h3.trans (markSaved_visitCount x r)⟩

theorem savedTitle_truthy (s : UrlItem) (h : savedTitle s ≠ savedUrl s) :
    truthy (savedTitle s) = true := by
  cases s with
  | str v => exact absurd rfl h
  | obj r =>
    simp only [savedTitle, savedUrl, jsOr] at h ⊢
    by_cases ht : truthy r.title = true
    · simp [ht]
    · simp [ht] at h

/-- C6: a url that is in topSites and exactly once in history has one merged
record, with `isTopSite = true` and the history record's `visitCount`; if it is
also saved exactly once, with a title that differs from the url, the merged
record carries the saved title. -/
theorem getAllUrls_field_precedence (savedUrls : List UrlItem)
    (historyUrls topSites : List UrlRecord) (k : Option Str) (t h : UrlRecord)
    (ht : t ∈ topSites) (htk : t.url = k)
    (hh : historyUrls.filter (fun r => r.url = k) = [h]) :
    ∃ r, (getAllUrls savedUrls historyUrls topSites).filter (fun x => x.url = k) = [r] ∧
      r.isTopSite = true ∧ r.visitCount = h.visitCount ∧
      ∀ s : UrlItem, savedUrls.filter (fun i => savedUrl i = k) = [s] →
        savedTitle s ≠ k → r.title = savedTitle s := by
  have hne : topSites.filter (fun r => r.url = k) ≠ [] :=
    filter_ne_nil_of_mem_map (fun r : UrlRecord => r.url) topSites k
      (List.mem_map.mpr ⟨t, ht, htk⟩)
  obtain ⟨r0, hr0, htop0⟩ := foldl_topStep (topSites.filter (fun r => r.url = k))
    (UrlMap.get [] k) (Or.inl hne)
  obtain ⟨r2, hr2, htop2, hvc2⟩ := foldl_savedStep (savedUrls.filter (fun i => savedUrl i = k))
    { r0 with visitCount := h.visitCount }
  have hget : UrlMap.get (mergedMap savedUrls historyUrls topSites) k = some r2 := by
    unfold mergedMap
    rw [get_addSaved, get_addHistory, get_addTopSites, hr0, hh]
    exact hr2
  refine ⟨r2, getAllUrls_filter _ _ _ k r2 hget, htop2.trans htop0, hvc2, ?_⟩
  intro s hs hsk
  rw [hs] at hr2
  have hsu : savedUrl s = k := by
    have : s ∈ savedUrls.filter (fun i => savedUrl i = k) := by rw [hs]; exact List.mem_singleton.mpr rfl
    simpa using (List.mem_filter.mp this).2
  have hne2 : savedTitle s ≠ savedUrl s := by rw [hsu]; exact hsk
  have htr := savedTitle_truthy s hne2
  have hr2' : r2 = markSaved s { r0 with visitCount := h.visitCount } := by
    simp only [List.foldl, savedStep, Option.some.injEq] at hr2
    exact hr2.symm
  rw [hr2']
  unfold markSaved
  simp [htr, hne2]

/-- C6 at a.com: a top site, in history with 7 visits, saved as "My A". -/
theorem getAllUrls_field_precedence_witness :
    sampleA ∈ [sampleA] ∧ sampleA.url = some (lit "a.com") ∧
    [historyA, sampleC].filter (fun r => r.url = some (lit "a.com")) = [historyA] ∧
    ∃ r, (getAllUrls [savedA] [historyA, sampleC] [sampleA]).filter
        (fun x => x.url = some (lit "a.com")) = [r] ∧
      r.isTopSite = true ∧ r.visitCount = historyA.visitCount ∧
      ∀ s : UrlItem, [savedA].filter (fun i => savedUrl i = some (lit "a.com")) = [s] →
        savedTitle s ≠ some (lit "a.com") → r.title = savedTitle s :=
  ⟨by decide, by decide, by decide,
    getAllUrls_field_precedence [savedA] [historyA, sampleC] [sampleA] (some (lit "a.com"))
      sampleA historyA (by decide) (by decide) (by decide)⟩

theorem filterUrls_sampleB_empty :
    filterUrls asciiLower [UrlItem.obj sampleB] []
      = some [{ item := normalizeItem (.obj sampleB), score := 56 }] := by
  norm_num [filterUrls, jsSort, byScore, defaultScore, normalizeItem, sampleB, jsOr, truthy]

theorem filterUrls_sampleB_b :
    filterUrls asciiLower [UrlItem.obj sampleB] (lit "b")
      = some [{ item := normalizeItem (.obj sampleB), score := 29 / 2 }] := by
  have h1 : fuzzyMatch asciiLower (lit "b") (lit "B") = 6 := by decide
  have h2 : fuzzyMatch asciiLower (lit "b") (lit "b.com") = 6 := by decide
  have h3 : (lit "b").isEmpty = false := by decide
  have h4 : truthy (some (lit "B")) = true := by decide
  norm_num [filterUrls, h3, normalizeItem, sampleB, jsOr, h4, mapThrow, queryScore,
    h1, h2, jsSort, byScore]

theorem captureSession_eq :
    captureSession =
      { modal := true, mode := some .omnisearch, urls := [.obj sampleB],
        filteredUrls := [{ item := normalizeItem (.obj sampleB), score := 29 / 2 }],
        selectedIndex := 0, consumeUrl := none,
        urlToSave := some (lit "https://current.page/"), titleToSave := some (lit "Current"),
        input := lit "b", dom := { actionRow := some .search, indexRows := 1 } } := by
  have h3 : (lit "b").isEmpty = false := by decide
  have h5 : looksLikeUrl (lit "b") = false := by decide
  have h6 : ¬ lit "b" = [] := by decide
  simp [captureSession, run, step, showModal, handleInput, Session.initial, renderResults,
    filterUrls_sampleB_empty, filterUrls_sampleB_b, h3, h5, h6]

/-- C7: in an omnisearch session without `consumeUrl` (opened on
`https://current.page/`, "b" typed, the row of b.com listed) a click on the
listed row sends `navigate(b.com)`: the current page is not saved. Enter on
the same selected row sends `saveAndNavigate(b.com, saveUrl = current page)`,
and so does a click on the action row with its own url. -/
theorem clickRow_sends_navigate :
    captureSession.mode = some .omnisearch ∧ captureSession.consumeUrl = none ∧
    (step asciiLower captureSession (.clickRow 0)).2
      = some (.navigate (some (lit "b.com"))) ∧
    (step asciiLower captureSession (.key .enter)).2
      = some (.saveAndNavigate (some (lit "b.com")) (some (lit "https://current.page/"))
          (some (lit "Current"))) ∧
    (step asciiLower captureSession .clickAction).2
      = some (.saveAndNavigate (some (lit "https://www.google.com/search?q=b"))
          (some (lit "https://current.page/")) (some (lit "Current"))) := by
  rw [captureSession_eq]
  refine ⟨rfl, rfl, ?_, ?_, ?_⟩
  · simp [step, clickRow, truthy, normalizeItem, sampleB]
  · simp [step, handleKeydown, selectedRow, dispatchCommit, truthy, normalizeItem, sampleB]
  · have h : googleSearchUrl (trim (lit "b")) = some (lit "https://www.google.com/search?q=b") := by
      decide
    simp [step, clickAction, dispatchCommit, truthy, h]

/-! ## Commit of the typed input -/

theorem filterUrls_nil (lc : Str → Str) (query : Str) : filterUrls lc [] query = some [] := by
  cases query <;> simp [filterUrls, mapThrow, jsSort]

theorem typedSession_eq (value : Str) (hv : value ≠ []) :
    typedSession value =
      { modal := true, mode := some .omnisearch, urls := [], filteredUrls := [],
        selectedIndex := 0, consumeUrl := none,
        urlToSave := some (lit "https://current.page/"), titleToSave := some (lit "Current"),
        input := value,
        dom := { actionRow := some (if looksLikeUrl value then .url else .search),
                 indexRows := 0 } } := by
  simp [typedSession, run, step, showModal, handleInput, Session.initial, renderResults,
    filterUrls_nil, hv]

/-- C8 (as amended): on Enter in omnisearch mode with no listed row selected
and trimmed query `q`: nothing is dispatched when `q` is empty; when `q`
contains a `.` and no space character (U+0020, the only character tested) the
committed url is `q` itself if `q` begins with `http://` or `https://` in any
letter case and `"https://" + q` otherwise; when `q` has no `.` or contains a
space it is `"https://www.google.com/search?q="` followed by
`encodeURIComponent(q)`. The action follows the dispatch policy. "example.com"
gives "https://example.com" and "foo bar" gives
"https://www.google.com/search?q=foo%20bar". -/
theorem enter_typed_input (s : Session) (hmode : s.mode = some .omnisearch)
    (hsel : selectedRow s = none) :
    (trim s.input = [] → handleKeydown s .enter = (s, none)) ∧
    (trim s.input ≠ [] → 46 ∈ trim s.input → 32 ∉ trim s.input →
      hasHttpScheme (trim s.input) = true →
      handleKeydown s .enter = (closeModal s, some (dispatchCommit s (some (trim s.input))))) ∧
    (trim s.input ≠ [] → 46 ∈ trim s.input → 32 ∉ trim s.input →
      hasHttpScheme (trim s.input) = false →
      handleKeydown s .enter
        = (closeModal s, some (dispatchCommit s (some (lit "https://" ++ trim s.input))))) ∧
    (trim s.input ≠ [] → (46 ∉ trim s.input ∨ 32 ∈ trim s.input) →
      ∀ e, encodeURIComponent (trim s.input) = some e →
      handleKeydown s .enter
        = (closeModal s,
            some (dispatchCommit s (some (lit "https://www.google.com/search?q=" ++ e))))) ∧
    (s.input = lit "example.com" →
      (handleKeydown s .enter).2 = some (dispatchCommit s (some (lit "https://example.com")))) ∧
    (s.input = lit "foo bar" →
      (handleKeydown s .enter).2
        = some (dispatchCommit s (some (lit "https://www.google.com/search?q=foo%20bar")))) := by
  have hrow : (if 0 ≤ s.selectedIndex then selectedRow s else none) = none := by
    split
    · exact hsel
    · rfl
  refine ⟨?_, ?_, ?_, ?_, ?_, ?_⟩
  · intro hq
    simp [handleKeydown, hmode, hrow, hq]
  · intro hq hdot hsp hscheme
    have hl : looksLikeUrl (trim s.input) = true := by
      simp [looksLikeUrl, hdot, hsp]
    simp [handleKeydown, hmode, hrow, hq, hl, normalizeUrl, hscheme]
  · intro hq hdot hsp hscheme
    have hl : looksLikeUrl (trim s.input) = true := by
      simp [looksLikeUrl, hdot, hsp]
    simp [handleKeydown, hmode, hrow, hq, hl, normalizeUrl, hscheme]
  · intro hq hno e he
    have hl : looksLikeUrl (trim s.input) = false := by
      rcases hno with h | h
      · simp [looksLikeUrl, h]
      · simp [looksLikeUrl, h]
    simp [handleKeydown, hmode, hrow, hq, hl, googleSearchUrl, he]
  · intro hin
    have h1 : trim (lit "example.com") = lit "example.com" := by decide
    have h2 : looksLikeUrl (lit "example.com") = true := by decide
    have h3 : normalizeUrl (lit "example.com") = lit "https://example.com" := by decide
    have h4 : ¬ lit "example.com" = [] := by decide
    simp [handleKeydown, hmode, hrow, hin, h1, h2, h3, h4]
  · intro hin
    have h1 : trim (lit "foo bar") = lit "foo bar" := by decide
    have h2 : looksLikeUrl (lit "foo bar") = false := by decide
    have h3 : googleSearchUrl (lit "foo bar")
        = some (lit "https://www.google.com/search?q=foo%20bar") := by decide
    have h4 : ¬ lit "foo bar" = [] := by decide
    simp [handleKeydown, hmode, hrow, hin, h1, h2, h3, h4]

/-- C8 (as amended) at the session in which "foo bar" was typed. -/
theorem enter_typed_input_witness :
    (typedSession (lit "foo bar")).mode = some .omnisearch ∧
    selectedRow (typedSession (lit "foo bar")) = none ∧
    (handleKeydown (typedSession (lit "foo bar")) .enter).2
      = some (.saveAndNavigate (some (lit "https://www.google.com/search?q=foo%20bar"))
          (some (lit "https://current.page/")) (some (lit "Current"))) := by
  have hs := typedSession_eq (lit "foo bar") (by decide)
  have hmode : (typedSession (lit "foo bar")).mode = some .omnisearch := by rw [hs]
  have hsel : selectedRow (typedSession (lit "foo bar")) = none := by
    rw [hs]; simp [selectedRow]
  have hin : (typedSession (lit "foo bar")).input = lit "foo bar" := by rw [hs]
  have h := (enter_typed_input (typedSession (lit "foo bar")) hmode hsel).2.2.2.2.2 hin
  refine ⟨hmode, hsel, ?_⟩
  rw [h, hs]
  simp [dispatchCommit, truthy]

/-- C8 as stated fails. "a.b<TAB>c" contains a `.` and a whitespace character,
yet Enter commits "https://a.b<TAB>c" and not the search url: `looksLikeUrl`
tests the space character only. "ftp://a.b" begins with a scheme, yet Enter
commits "https://ftp://a.b": `normalizeUrl` knows `http://` and `https://`
only. -/
theorem enter_typed_input_counterexample :
    46 ∈ trim (lit "a.b\tc") ∧ (trim (lit "a.b\tc")).any isWhiteSpace = true ∧
    selectedRow (typedSession (lit "a.b\tc")) = none ∧
    (step asciiLower (typedSession (lit "a.b\tc")) (.key .enter)).2
      = some (.saveAndNavigate (some (lit "https://a.b\tc"))
          (some (lit "https://current.page/")) (some (lit "Current"))) ∧
    googleSearchUrl (trim (lit "a.b\tc"))
      = some (lit "https://www.google.com/search?q=a.b%09c") ∧
    (step asciiLower (typedSession (lit "ftp://a.b")) (.key .enter)).2
      = some (.saveAndNavigate (some (lit "https://ftp://a.b"))
          (some (lit "https://current.page/")) (some (lit "Current"))) := by
  have hs1 := typedSession_eq (lit "a.b\tc") (by decide)
  have hs2 := typedSession_eq (lit "ftp://a.b") (by decide)
  refine ⟨by decide, by decide, ?_, ?_, by decide, ?_⟩
  · rw [hs1]; simp [selectedRow]
  · have h1 : trim (lit "a.b\tc") = lit "a.b\tc" := by decide
    have h2 : looksLikeUrl (lit "a.b\tc") = true := by decide
    have h3 : normalizeUrl (lit "a.b\tc") = lit "https://a.b\tc" := by decide
    have h4 : ¬ lit "a.b\tc" = [] := by decide
    rw [hs1]
    simp [step, handleKeydown, selectedRow, dispatchCommit, truthy, h1, h2, h3, h4]
  · have h1 : trim (lit "ftp://a.b") = lit "ftp://a.b" := by decide
    have h2 : looksLikeUrl (lit "ftp://a.b") = true := by decide
    have h3 : normalizeUrl (lit "ftp://a.b") = lit "https://ftp://a.b" := by decide
    have h4 : ¬ lit "ftp://a.b" = [] := by decide
    rw [hs2]
    simp [step, handleKeydown, selectedRow, dispatchCommit, truthy, h1, h2, h3, h4]

/-! ## The cursor -/

/-- C9: in a finder session without candidates, one Move down after Open puts
`selectedIndex` at -1: `maxIndex = min(0 - 1, 9) = -1` and the cursor becomes
`min(0 + 1, -1)`. Move up brings it back to 0. -/
theorem finder_cursor_minus_one :
    emptyFinder.modal = true ∧ emptyFinder.mode = some .finder ∧
    emptyFinder.selectedIndex = 0 ∧
    (run asciiLower emptyFinder [.key .down]).mode = some .finder ∧
    (run asciiLower emptyFinder [.key .down]).selectedIndex = -1 ∧
    (run asciiLower emptyFinder [.key .down, .key .up]).selectedIndex = 0 := by
  have h : emptyFinder =
      { modal := true, mode := some .finder, urls := [], filteredUrls := [],
        selectedIndex := 0, consumeUrl := none, urlToSave := none, titleToSave := none,
        input := [], dom := { actionRow := none, indexRows := 0 } } := by
    simp [emptyFinder, showModal, Session.initial, renderResults, filterUrls_nil]
  rw [h]
  refine ⟨rfl, rfl, rfl, ?_, ?_, ?_⟩
  · simp [run, step, handleKeydown, renderResults]
  · simp [run, step, handleKeydown, renderResults]
  · simp [run, step, handleKeydown, renderResults]

theorem renderResults_fields (s : Session) (query : Str) :
    (renderResults s query).selectedIndex = s.selectedIndex ∧
    (renderResults s query).filteredUrls = s.filteredUrls ∧
    (renderResults s query).mode = s.mode := by
  unfold renderResults
  split
  · split <;> exact ⟨rfl, rfl, rfl⟩
  · exact ⟨rfl, rfl, rfl⟩
  · exact ⟨rfl, rfl, rfl⟩

theorem cursorInRange_of_fields (s s' : Session) (h1 : s'.selectedIndex = s.selectedIndex)
    (h2 : s'.filteredUrls = s.filteredUrls) (h3 : s'.mode = s.mode) (h : CursorInRange s) :
    CursorInRange s' := by
  unfold CursorInRange at *
  rw [h1, h2, h3]
  exact h

theorem cursorInRange_zero (s : Session) (h : s.selectedIndex = 0) : CursorInRange s := by
  unfold CursorInRange
  rw [h]
  refine ⟨by omega, ?_⟩
  intro hne
  have hlen : 0 < s.filteredUrls.length := List.length_pos.mpr hne
  refine ⟨?_, fun _ => le_refl _⟩
  apply le_min <;> omega

theorem cursorInRange_showModal (lc : Str → Str) (s : Session) (modalMode : Mode)
    (urlList : List UrlItem) (urlToConsume currentUrl currentTitle : Option Str) :
    CursorInRange (showModal lc s modalMode urlList urlToConsume currentUrl currentTitle) := by
  apply cursorInRange_zero
  unfold showModal
  simp only [filterUrls_empty]
  rw [(renderResults_fields _ _).1]

theorem cursorInRange_handleInput (lc : Str → Str) (s : Session) (value : Str)
    (h : CursorInRange s) : CursorInRange (handleInput lc s value) := by
  unfold handleInput
  simp only
  split
  · exact cursorInRange_of_fields s _ rfl rfl rfl h
  · apply cursorInRange_zero
    rw [(renderResults_fields _ _).1]

theorem cursorInRange_down (s : Session) (h : CursorInRange s) :
    CursorInRange (handleKeydown s .down).1 := by
  obtain ⟨hlow, hup⟩ := h
  simp only [handleKeydown]
  apply cursorInRange_of_fields _ _ (renderResults_fields _ _).1 (renderResults_fields _ _).2.1
    (renderResults_fields _ _).2.2
  split
  · exact cursorInRange_zero _ rfl
  · unfold CursorInRange
    simp only
    refine ⟨?_, ?_⟩
    · apply le_min
      · omega
      · apply le_min <;> omega
    · intro hne
      have hlen : 0 < s.filteredUrls.length := List.length_pos.mpr hne
      refine ⟨min_le_right _ _, ?_⟩
      intro hf
      have h0 := (hup hne).2 hf
      apply le_min
      · omega
      · apply le_min <;> omega

theorem cursorInRange_up (s : Session) (h : CursorInRange s) :
    CursorInRange (handleKeydown s .up).1 := by
  obtain ⟨hlow, hup⟩ := h
  simp only [handleKeydown]
  apply cursorInRange_of_fields _ _ (renderResults_fields _ _).1 (renderResults_fields _ _).2.1
    (renderResults_fields _ _).2.2
  split
  · rename_i hc
    unfold CursorInRange
    simp only
    refine ⟨le_refl _, ?_⟩
    intro hne
    have hlen : 0 < s.filteredUrls.length := List.length_pos.mpr hne
    refine ⟨?_, ?_⟩
    · apply le_min <;> omega
    · intro hf
      rw [hc.1] at hf
      exact absurd hf (by decide)
  · unfold CursorInRange
    simp only
    refine ⟨?_, ?_⟩
    · exact le_trans (by omega) (le_max_right _ _)
    · intro hne
      have hlen : 0 < s.filteredUrls.length := List.length_pos.mpr hne
      have h1 := (hup hne).1
      refine ⟨?_, fun _ => le_max_right _ _⟩
      apply max_le
      · exact le_trans (by omega) h1
      · apply le_min <;> omega

/-- What does hold of the cursor: in every state reached from Open by Type,
Move down and Move up events `selectedIndex ≥ -1`, and while the filtered list
is not empty `selectedIndex ≤ min(len(filtered) - 1, 9)` and, in finder mode,
`selectedIndex ≥ 0`. -/
theorem cursorInRange_run (lc : Str → Str) (es : List Event)
    (hes : ∀ e ∈ es, Event.isNavigation e = true) :
    ∀ s : Session, CursorInRange s → CursorInRange (run lc s es) := by
  induction es with
  | nil => intro s h; exact h
  | cons e rest ih =>
    intro s h
    have he := hes e (List.mem_cons_self _ _)
    have hrest : ∀ x ∈ rest, Event.isNavigation x = true :=
      fun x hx => hes x (List.mem_cons_of_mem _ hx)
    show CursorInRange (run lc (step lc s e).1 rest)
    apply ih hrest
    unfold step
    split
    · cases e with
      | type value => exact cursorInRange_handleInput lc s value h
      | key k =>
        cases k with
        | down => exact cursorInRange_down s h
        | up => exact cursorInRange_up s h
        | escape => exact absurd he (by decide)
        | enter => exact absurd he (by decide)
        | other => exact absurd he (by decide)
      | clickRow idx => exact absurd he (by simp [Event.isNavigation])
      | clickAction => exact absurd he (by decide)
      | clickOverlay => exact absurd he (by decide)
    · exact h

/-! ## Closing the overlay -/

theorem filterUrls_two_strings :
    filterUrls asciiLower [UrlItem.str (lit "a.com"), UrlItem.str (lit "b.com")] []
      = some [{ item := normalizeItem (.str (lit "a.com")), score := 1 },
              { item := normalizeItem (.str (lit "b.com")), score := 1 }] := by
  norm_num [filterUrls, jsSort, byScore, defaultScore, normalizeItem]

theorem twoFinder_eq :
    twoFinder =
      { modal := true, mode := some .finder,
        urls := [.str (lit "a.com"), .str (lit "b.com")],
        filteredUrls := [{ item := normalizeItem (.str (lit "a.com")), score := 1 },
                         { item := normalizeItem (.str (lit "b.com")), score := 1 }],
        selectedIndex := 0, consumeUrl := none, urlToSave := none, titleToSave := none,
        input := [], dom := { actionRow := none, indexRows := 2 } } := by
  simp [twoFinder, showModal, Session.initial, renderResults, filterUrls_two_strings]

theorem clickAction_shape (s : Session) :
    (clickAction s).2 = none ∨ (clickAction s).1 = closeModal s := by
  unfold clickAction
  dsimp only
  repeat' split
  all_goals first | exact Or.inl rfl | exact Or.inr rfl

theorem clickRow_shape (s : Session) (idx : Nat) :
    (clickRow s idx).2 = none ∨ (clickRow s idx).1 = closeModal s := by
  unfold clickRow
  repeat' split
  all_goals first | exact Or.inl rfl | exact Or.inr rfl

theorem handleKeydown_shape (s : Session) (k : Key) :
    (handleKeydown s k).2 = none ∨ (handleKeydown s k).1 = closeModal s := by
  unfold handleKeydown
  dsimp only
  repeat' split
  all_goals first | exact Or.inl rfl | exact Or.inr rfl

/-- Every handler that sends a message has called `closeModal()` first. -/
theorem step_commit_closes (lc : Str → Str) (s : Session) (e : Event) (a : Action)
    (h : (step lc s e).2 = some a) : (step lc s e).1 = closeModal s := by
  have hshape : (step lc s e).2 = none ∨ (step lc s e).1 = closeModal s := by
    unfold step
    split
    · cases e with
      | type value => exact Or.inl rfl
      | key k => exact handleKeydown_shape s k
      | clickRow idx => exact clickRow_shape s idx
      | clickAction => exact clickAction_shape s
      | clickOverlay => exact Or.inr rfl
    · exact Or.inl rfl
  rcases hshape with h1 | h1
  · rw [h1] at h
    exact absurd h (by simp)
  · exact h1

theorem showModal_fields (lc : Str → Str) (s : Session) (modalMode : Mode)
    (urlList : List UrlItem) (urlToConsume currentUrl currentTitle : Option Str) :
    (showModal lc s modalMode urlList urlToConsume currentUrl currentTitle).urls = urlList ∧
    (showModal lc s modalMode urlList urlToConsume currentUrl currentTitle).selectedIndex = 0 ∧
    some (showModal lc s modalMode urlList urlToConsume currentUrl currentTitle).filteredUrls
      = filterUrls lc urlList [] := by
  have hr : ∀ (x : Session) (q : Str), (renderResults x q).urls = x.urls := by
    intro x q
    unfold renderResults
    split
    · split <;> rfl
    · rfl
    · rfl
  unfold showModal
  simp only [filterUrls_empty]
  refine ⟨?_, ?_, ?_⟩
  · rw [hr]
  · rw [(renderResults_fields _ _).1]
  · rw [(renderResults_fields _ _).2.1]

/-- C12 (as amended): `closeModal` on an open session sets `modal`, `mode`,
`consumeUrl`, `urlToSave` and `titleToSave` to null and leaves `urls`,
`filteredUrls` and `selectedIndex` as they are; Cancel (Escape, click on the
overlay) and every handler that sends a message end in that state; the three
kept fields are overwritten by the next `showModal`, which stores its url list,
the default ranking of that list and the cursor 0. -/
theorem closeModal_clears (lc : Str → Str) (s : Session) (hopen : s.modal = true) :
    (closeModal s).modal = false ∧ (closeModal s).mode = none ∧
    (closeModal s).consumeUrl = none ∧ (closeModal s).urlToSave = none ∧
    (closeModal s).titleToSave = none ∧
    (closeModal s).urls = s.urls ∧ (closeModal s).filteredUrls = s.filteredUrls ∧
    (closeModal s).selectedIndex = s.selectedIndex ∧
    (step lc s (.key .escape)).1 = closeModal s ∧ (step lc s .clickOverlay).1 = closeModal s ∧
    (∀ (e : Event) (a : Action), (step lc s e).2 = some a → (step lc s e).1 = closeModal s) ∧
    (∀ (modalMode : Mode) (urlList : List UrlItem) (c u t : Option Str),
      (showModal lc (closeModal s) modalMode urlList c u t).urls = urlList ∧
      (showModal lc (closeModal s) modalMode urlList c u t).selectedIndex = 0 ∧
      some (showModal lc (closeModal s) modalMode urlList c u t).filteredUrls
        = filterUrls lc urlList []) := by
  have hc : closeModal s =
      { s with modal := false, mode := none, consumeUrl := none, urlToSave := none,
               titleToSave := none, input := [],
               dom := { actionRow := none, indexRows := 0 } } := by
    unfold closeModal
    rw [if_pos hopen]
  refine ⟨by rw [hc], by rw [hc], by rw [hc], by rw [hc], by rw [hc], by rw [hc], by rw [hc],
    by rw [hc], ?_, ?_, ?_, ?_⟩
  · simp [step, hopen, handleKeydown]
  · simp [step, hopen]
  · intro e a h
    exact step_commit_closes lc s e a h
  · intro modalMode urlList c u t
    exact showModal_fields lc (closeModal s) modalMode urlList c u t

/-- C12 (as amended) at the finder session over a.com and b.com. -/
theorem closeModal_clears_witness :
    twoFinder.modal = true ∧
    (closeModal twoFinder).mode = none ∧ (closeModal twoFinder).consumeUrl = none ∧
    (closeModal twoFinder).urls = twoFinder.urls ∧
    (closeModal twoFinder).filteredUrls = twoFinder.filteredUrls ∧
    (closeModal twoFinder).selectedIndex = twoFinder.selectedIndex :=
  have hopen : twoFinder.modal = true := by rw [twoFinder_eq]
  have h := closeModal_clears asciiLower twoFinder hopen
  ⟨hopen, h.2.1, h.2.2.1, h.2.2.2.2.2.1, h.2.2.2.2.2.2.1, h.2.2.2.2.2.2.2.1⟩

/-- C12 as stated fails: after Open of the finder over a.com and b.com, Move
down and Escape, the overlay is closed and `mode` is null, but `urls` still
holds the two candidates, `filteredUrls` the two ranked records, and
`selectedIndex` is 1. -/
theorem closeModal_clears_counterexample :
    (run asciiLower twoFinder [.key .down, .key .escape]).modal = false ∧
    (run asciiLower twoFinder [.key .down, .key .escape]).mode = none ∧
    (run asciiLower twoFinder [.key .down, .key .escape]).urls
      = [.str (lit "a.com"), .str (lit "b.com")] ∧
    (run asciiLower twoFinder [.key .down, .key .escape]).filteredUrls
      = [{ item := normalizeItem (.str (lit "a.com")), score := 1 },
         { item := normalizeItem (.str (lit "b.com")), score := 1 }] ∧
    (run asciiLower twoFinder [.key .down, .key .escape]).selectedIndex = 1 := by
  rw [twoFinder_eq]
  simp [run, step, handleKeydown, renderResults, closeModal]

/-! ## Records without a url -/

theorem UrlMap.withUrl_cons (e : Option Str × UrlRecord) (m : UrlMap) :
    UrlMap.withUrl (e :: m) = if e.1 ≠ none then e :: UrlMap.withUrl m else UrlMap.withUrl m := by
  unfold UrlMap.withUrl
  by_cases h : e.1 = none <;> simp [List.filter_cons, h]

theorem UrlMap.has_withUrl (m : UrlMap) (k : Option Str) (hk : k ≠ none) :
    UrlMap.has (UrlMap.withUrl m) k = UrlMap.has m k := by
  induction m with
  | nil => rfl
  | cons e m ih =>
    rw [UrlMap.withUrl_cons, UrlMap.has_cons]
    by_cases h : e.1 = none
    · have hnk : ¬ none = k := fun hh => hk hh.symm
      simp [h, hnk, ih]
    · simp [h, UrlMap.has_cons, ih]

theorem UrlMap.has_withUrl_none (m : UrlMap) : UrlMap.has (UrlMap.withUrl m) none = false := by
  induction m with
  | nil => rfl
  | cons e m ih =>
    rw [UrlMap.withUrl_cons]
    by_cases h : e.1 = none
    · simp [h, ih]
    · simp [h, UrlMap.has_cons, ih]

theorem UrlMap.withUrl_modify (m : UrlMap) (k : Option Str) (f : UrlRecord → UrlRecord) :
    UrlMap.withUrl (UrlMap.modify m k f) = UrlMap.modify (UrlMap.withUrl m) k f := by
  induction m with
  | nil => rfl
  | cons e m ih =>
    have hkey : (if e.1 = k then (e.1, f e.2) else e).1 = e.1 := by
      split <;> rfl
    rw [UrlMap.modify_cons, UrlMap.withUrl_cons, UrlMap.withUrl_cons, ih]
    simp only [hkey]
    by_cases h : e.1 = none
    · rw [if_neg (not_not.mpr h), if_neg (not_not.mpr h)]
    · rw [if_pos h, if_pos h, UrlMap.modify_cons]

theorem UrlMap.modify_of_not_has (m : UrlMap) (k : Option Str) (f : UrlRecord → UrlRecord)
    (h : UrlMap.has m k = false) : UrlMap.modify m k f = m := by
  induction m with
  | nil => rfl
  | cons e m ih =>
    rw [UrlMap.has_cons] at h
    simp only [Bool.or_eq_false_iff, decide_eq_false_iff_not] at h
    rw [UrlMap.modify_cons, ih h.2]
    simp [h.1]

theorem UrlMap.withUrl_modify_none (m : UrlMap) (f : UrlRecord → UrlRecord) :
    UrlMap.withUrl (UrlMap.modify m none f) = UrlMap.withUrl m := by
  rw [UrlMap.withUrl_modify, UrlMap.modify_of_not_has _ _ _ (UrlMap.has_withUrl_none m)]

theorem UrlMap.withUrl_append_single (m : UrlMap) (k : Option Str) (v : UrlRecord) :
    UrlMap.withUrl (m ++ [(k, v)])
      = if k ≠ none then UrlMap.withUrl m ++ [(k, v)] else UrlMap.withUrl m := by
  unfold UrlMap.withUrl
  by_cases h : k = none <;> simp [List.filter_append, h]

theorem UrlMap.withUrl_set_none (m : UrlMap) (v : UrlRecord) :
    UrlMap.withUrl (UrlMap.set m none v) = UrlMap.withUrl m := by
  by_cases hh : UrlMap.has m none = true
  · rw [UrlMap.set_of_has m none v hh, UrlMap.withUrl_modify_none]
  · rw [UrlMap.set_of_not_has m none v hh, UrlMap.withUrl_append_single]
    simp

theorem UrlMap.withUrl_set (m : UrlMap) (k : Option Str) (v : UrlRecord) (hk : k ≠ none) :
    UrlMap.withUrl (UrlMap.set m k v) = UrlMap.set (UrlMap.withUrl m) k v := by
  by_cases hh : UrlMap.has m k = true
  · have hh2 : UrlMap.has (UrlMap.withUrl m) k = true := by rw [UrlMap.has_withUrl m k hk]; exact hh
    rw [UrlMap.set_of_has m k v hh, UrlMap.set_of_has _ k v hh2, UrlMap.withUrl_modify]
  · have hh2 : ¬ UrlMap.has (UrlMap.withUrl m) k = true := by
      rw [UrlMap.has_withUrl m k hk]; exact hh
    rw [UrlMap.set_of_not_has m k v hh, UrlMap.set_of_not_has _ k v hh2,
      UrlMap.withUrl_append_single]
    simp [hk]

theorem withUrl_addTopSites (topSites : List UrlRecord) :
    ∀ m : UrlMap, UrlMap.withUrl (addTopSites m topSites)
      = addTopSites (UrlMap.withUrl m) (topSites.filter (fun r => r.url ≠ none)) := by
  induction topSites with
  | nil => intro m; rfl
  | cons item rest ih =>
    intro m
    rw [addTopSites_cons, ih, List.filter_cons]
    by_cases h : item.url = none
    · rw [h, UrlMap.withUrl_set_none]
      simp
    · rw [UrlMap.withUrl_set _ _ _ h]
      simp [h, addTopSites_cons]

theorem withUrl_addHistory (historyUrls : List UrlRecord) :
    ∀ m : UrlMap, UrlMap.withUrl (addHistory m historyUrls)
      = addHistory (UrlMap.withUrl m) (historyUrls.filter (fun r => r.url ≠ none)) := by
  induction historyUrls with
  | nil => intro m; rfl
  | cons item rest ih =>
    intro m
    rw [addHistory_cons, ih, List.filter_cons]
    by_cases h : item.url = none
    · have hstep : UrlMap.withUrl (if UrlMap.has m item.url then
            UrlMap.modify m item.url
              (fun existing => { existing with visitCount := item.visitCount })
          else UrlMap.set m item.url item) = UrlMap.withUrl m := by
        rw [h]
        split
        · exact UrlMap.withUrl_modify_none m _
        · exact UrlMap.withUrl_set_none m _
      rw [hstep]
      simp [h]
    · have hstep : UrlMap.withUrl (if UrlMap.has m item.url then
            UrlMap.modify m item.url
              (fun existing => { existing with visitCount := item.visitCount })
          else UrlMap.set m item.url item)
          = (if UrlMap.has (UrlMap.withUrl m) item.url then
              UrlMap.modify (UrlMap.withUrl m) item.url
                (fun existing => { existing with visitCount := item.visitCount })
            else UrlMap.set (UrlMap.withUrl m) item.url item) := by
        rw [UrlMap.has_withUrl m _ h]
        split
        · exact UrlMap.withUrl_modify m _ _
        · exact UrlMap.withUrl_set m _ _ h
      rw [hstep]
      simp [h, addHistory_cons]

theorem withUrl_addSaved (savedUrls : List UrlItem) :
    ∀ m : UrlMap, UrlMap.withUrl (addSaved m savedUrls)
      = addSaved (UrlMap.withUrl m) (savedUrls.filter (fun i => savedUrl i ≠ none)) := by
  induction savedUrls with
  | nil => intro m; rfl
  | cons item rest ih =>
    intro m
    rw [addSaved_cons, ih, List.filter_cons]
    by_cases h : savedUrl item = none
    · have hstep : UrlMap.withUrl (if UrlMap.has m (savedUrl item) then
            UrlMap.modify m (savedUrl item) (markSaved item)
          else UrlMap.set m (savedUrl item)
            { url := savedUrl item, title := savedTitle item, source := none,
              isTopSite := false, isSaved := true, visitCount := none })
          = UrlMap.withUrl m := by
        rw [h]
        split
        · exact UrlMap.withUrl_modify_none m _
        · exact UrlMap.withUrl_set_none m _
      rw [hstep]
      simp [h]
    · have hstep : UrlMap.withUrl (if UrlMap.has m (savedUrl item) then
            UrlMap.modify m (savedUrl item) (markSaved item)
          else UrlMap.set m (savedUrl item)
            { url := savedUrl item, title := savedTitle item, source := none,
              isTopSite := false, isSaved := true, visitCount := none })
          = (if UrlMap.has (UrlMap.withUrl m) (savedUrl item) then
              UrlMap.modify (UrlMap.withUrl m) (savedUrl item) (markSaved item)
            else UrlMap.set (UrlMap.withUrl m) (savedUrl item)
              { url := savedUrl item, title := savedTitle item, source := none,
                isTopSite := false, isSaved := true, visitCount := none }) := by
        rw [UrlMap.has_withUrl m _ h]
        split
        · exact UrlMap.withUrl_modify m _ _
        · exact UrlMap.withUrl_set m _ _ h
      rw [hstep]
      simp [h, addSaved_cons]

/-- The entries with a url of the merged map are the merged map of the inputs
without the records that lack a url. -/
theorem withUrl_mergedMap (savedUrls : List UrlItem) (historyUrls topSites : List UrlRecord) :
    UrlMap.withUrl (mergedMap savedUrls historyUrls topSites)
      = mergedMap (savedUrls.filter (fun i => savedUrl i ≠ none))
          (historyUrls.filter (fun r => r.url ≠ none))
          (topSites.filter (fun r => r.url ≠ none)) := by
  unfold mergedMap
  rw [withUrl_addSaved, withUrl_addHistory, withUrl_addTopSites]
  rfl

theorem UrlMap.values_withUrl (m : UrlMap) (hm : UrlMap.WellKeyed m) :
    UrlMap.values (UrlMap.withUrl m) = (UrlMap.values m).filter (fun r => r.url ≠ none) := by
  unfold UrlMap.values UrlMap.withUrl
  rw [List.filter_map]
  congr 1
  apply List.filter_congr
  intro e he
  simp only [Function.comp, hm.2 e he]

theorem orderedInsert_of_forall {α : Type} (r : α → α → Prop) [DecidableRel r] (a : α)
    (l : List α) (h : ∀ c ∈ l, r a c) : List.orderedInsert r a l = a :: l := by
  cases l with
  | nil => rfl
  | cons b l => exact List.orderedInsert_of_le r l (h b (List.mem_cons_self _ _))

/-- Inserting into a sorted list and then filtering is filtering and then
inserting. -/
theorem filter_orderedInsert_sorted {α : Type} (r : α → α → Prop) [DecidableRel r]
    (htrans : ∀ a b c, r a b → r b c → r a c) (p : α → Bool) (a : α) :
    ∀ l : List α, l.Sorted r →
      (List.orderedInsert r a l).filter p
        = if p a = true then List.orderedInsert r a (l.filter p) else l.filter p := by
  intro l
  induction l with
  | nil =>
    intro _
    by_cases ha : p a = true <;> simp [ha]
  | cons b l ih =>
    intro hl
    have hbl : ∀ c ∈ l, r b c := (List.sorted_cons.mp hl).1
    have hl2 : l.Sorted r := (List.sorted_cons.mp hl).2
    by_cases hab : r a b
    · rw [List.orderedInsert_of_le r l hab, List.filter_cons]
      by_cases ha : p a = true
      · rw [if_pos ha, if_pos ha]
        have hall : ∀ c ∈ (b :: l).filter p, r a c := by
          intro c hc
          rcases List.mem_cons.mp (List.mem_filter.mp hc).1 with h | h
          · rw [h]; exact hab
          · exact htrans a b c hab (hbl c h)
        rw [orderedInsert_of_forall r a _ hall]
      · rw [if_neg ha, if_neg ha]
    · have hins : List.orderedInsert r a (b :: l) = b :: List.orderedInsert r a l := by
        simp [List.orderedInsert, hab]
      rw [hins, List.filter_cons, ih hl2, List.filter_cons]
      by_cases ha : p a = true <;> by_cases hb : p b = true
      · simp [ha, hb, List.orderedInsert, hab]
      · simp [ha, hb]
      · simp [ha, hb]
      · simp [ha, hb]

/-- A stable sort by a total preorder commutes with filtering. -/
theorem filter_insertionSort_comm {α : Type} (r : α → α → Prop) [DecidableRel r]
    (htotal : ∀ a b, r a b ∨ r b a) (htrans : ∀ a b c, r a b → r b c → r a c) (p : α → Bool) :
    ∀ l : List α, (List.insertionSort r l).filter p = List.insertionSort r (l.filter p) := by
  haveI : IsTotal α r := ⟨htotal⟩
  haveI : IsTrans α r := ⟨htrans⟩
  intro l
  induction l with
  | nil => rfl
  | cons a l ih =>
    rw [List.insertionSort, filter_orderedInsert_sorted r htrans p a _
      (List.sorted_insertionSort r l), ih, List.filter_cons]
    by_cases ha : p a = true
    · rw [if_pos ha, if_pos ha, List.insertionSort]
    · rw [if_neg ha, if_neg ha]

theorem compareMerged_total (a b : UrlRecord) :
    compareMerged a b ≤ 0 ∨ compareMerged b a ≤ 0 := by
  unfold compareMerged
  cases a.isTopSite <;> cases b.isTopSite <;> cases a.isSaved <;> cases b.isSaved <;>
    simp <;> omega

theorem compareMerged_trans (a b c : UrlRecord) (h1 : compareMerged a b ≤ 0)
    (h2 : compareMerged b c ≤ 0) : compareMerged a c ≤ 0 := by
  unfold compareMerged at *
  revert h1 h2
  cases a.isTopSite <;> cases b.isTopSite <;> cases c.isTopSite <;> cases a.isSaved <;>
    cases b.isSaved <;> cases c.isSaved <;> simp <;> omega

theorem getAllUrls_filter_withUrl (savedUrls : List UrlItem)
    (historyUrls topSites : List UrlRecord) :
    (getAllUrls savedUrls historyUrls topSites).filter (fun r => r.url ≠ none)
      = getAllUrls (savedUrls.filter (fun i => savedUrl i ≠ none))
          (historyUrls.filter (fun r => r.url ≠ none))
          (topSites.filter (fun r => r.url ≠ none)) := by
  have h1 : getAllUrls savedUrls historyUrls topSites
      = List.insertionSort (fun a b => compareMerged a b ≤ 0)
          (UrlMap.values (mergedMap savedUrls historyUrls topSites)) := rfl
  have h2 : getAllUrls (savedUrls.filter (fun i => savedUrl i ≠ none))
        (historyUrls.filter (fun r => r.url ≠ none)) (topSites.filter (fun r => r.url ≠ none))
      = List.insertionSort (fun a b => compareMerged a b ≤ 0)
          (UrlMap.values (mergedMap (savedUrls.filter (fun i => savedUrl i ≠ none))
            (historyUrls.filter (fun r => r.url ≠ none))
            (topSites.filter (fun r => r.url ≠ none)))) := rfl
  rw [h1, h2, filter_insertionSort_comm _ compareMerged_total compareMerged_trans,
    ← UrlMap.values_withUrl _ (mergedMap_wellKeyed _ _ _), withUrl_mergedMap]

/-- C11 (as amended): when some record of the saved, history or top-sites input
lacks the url, `getAllUrls` (a total function: no step of the merge throws)
does not skip it: the records without a url are merged with each other into
exactly one output record without a url, the one stored under the key
`undefined`. The rest of the output, the records with a url in their order, is
the merge of the inputs without the records that lack a url. -/
theorem getAllUrls_record_without_url (savedUrls : List UrlItem)
    (historyUrls topSites : List UrlRecord)
    (hmiss : none ∈ topSites.map (fun r => r.url) ∨ none ∈ historyUrls.map (fun r => r.url) ∨
      none ∈ savedUrls.map savedUrl) :
    (∃ r, (getAllUrls savedUrls historyUrls topSites).filter (fun x => x.url = none) = [r]) ∧
    (getAllUrls savedUrls historyUrls topSites).filter (fun r => r.url ≠ none)
      = getAllUrls (savedUrls.filter (fun i => savedUrl i ≠ none))
          (historyUrls.filter (fun r => r.url ≠ none))
          (topSites.filter (fun r => r.url ≠ none)) := by
  constructor
  · obtain ⟨r, hr⟩ := Option.isSome_iff_exists.mp
      (mergedMap_get_isSome savedUrls historyUrls topSites none hmiss)
    exact ⟨r, getAllUrls_filter savedUrls historyUrls topSites none r hr⟩
  · exact getAllUrls_filter_withUrl savedUrls historyUrls topSites

/-- C11 (as amended) at the top sites [record without url, A]. -/
theorem getAllUrls_record_without_url_witness :
    (none ∈ [noUrlTop, sampleA].map (fun r => r.url) ∨
      none ∈ ([] : List UrlRecord).map (fun r => r.url) ∨
      none ∈ ([] : List UrlItem).map savedUrl) ∧
    (∃ r, (getAllUrls [] [] [noUrlTop, sampleA]).filter (fun x => x.url = none) = [r]) ∧
    (getAllUrls [] [] [noUrlTop, sampleA]).filter (fun r => r.url ≠ none)
      = getAllUrls (([] : List UrlItem).filter (fun i => savedUrl i ≠ none))
          (([] : List UrlRecord).filter (fun r => r.url ≠ none))
          ([noUrlTop, sampleA].filter (fun r => r.url ≠ none)) :=
  ⟨by decide, getAllUrls_record_without_url [] [] [noUrlTop, sampleA] (by decide)⟩

/-- C11 as stated fails: with the top sites [record without url, A] the output
of `getAllUrls` holds the record without url, now marked as a top site; it is
not skipped. A history record and a saved record without url are merged into
that same record. -/
theorem getAllUrls_record_without_url_counterexample :
    getAllUrls [] [] [noUrlTop, sampleA] = [{ noUrlTop with isTopSite := true }, sampleA] ∧
    ({ noUrlTop with isTopSite := true } : UrlRecord).url = none ∧
    getAllUrls [.obj { noUrlTop with title := some (lit "Saved") }]
        [{ noUrlTop with visitCount := some 3 }] [noUrlTop, sampleA]
      = [{ url := none, title := some (lit "Saved"), source := some (lit "topSite"),
           isTopSite := true, isSaved := true, visitCount := some 3 }, sampleA] := by
  refine ⟨by decide, rfl, by decide⟩

end DownloadRam
